import Mathlib

/-!
Verification development for the gasofo component-wiring engine.

The Lean definitions below are a shallow embedding of the Python sources:
`gasofo/discoverable.py`, `gasofo/ports.py`, `gasofo/domain.py`,
`gasofo/service.py` and `gasofo/dep_parser.py`.  Python dicts are modelled
as association lists (insertion ordered, first-key-wins lookup, exactly as
CPython's dict behaves for the operations the code performs), exceptions as
an `Except` error type, and object identity as a numeric `cid` field.
-/

set_option autoImplicit false

namespace Gasofo

/-- Association-list lookup, modelling Python dict lookup (`d[k]` / `d.get(k)`). -/
def alookup {κ ν : Type} [DecidableEq κ] : List (κ × ν) → κ → Option ν
  | [], _ => none
  | e :: rest, k => if e.1 = k then some e.2 else alookup rest k

/-- Association-list store, modelling Python `d[k] = v` / `setattr`. -/
def aset {κ ν : Type} [DecidableEq κ] (m : List (κ × ν)) (k : κ) (v : ν) : List (κ × ν) :=
  if (alookup m k).isSome then
    m.map (fun e => if e.1 = k then (e.1, v) else e)
  else
    m ++ [(k, v)]

/-- Models Python `d.setdefault(k, []).append(v)` on a dict of lists. -/
def multiInsert {κ ν : Type} [DecidableEq κ] (m : List (κ × List ν)) (k : κ) (v : ν) :
    List (κ × List ν) :=
  if (alookup m k).isSome then
    m.map (fun e => if e.1 = k then (e.1, e.2 ++ [v]) else e)
  else
    m ++ [(k, [v])]

/-- Helper describing the effect of repeated `multiInsert`s on one key. -/
def optApp {ν : Type} (o : Option (List ν)) (l : List ν) : Option (List ν) :=
  match o, l with
  | none, [] => none
  | o, l => some (o.getD [] ++ l)

/-- Helper describing the effect of repeated first-wins single inserts on one key. -/
def firstProv {ν : Type} (o : Option ν) (l : List ν) : Option ν :=
  match o with
  | some c => some c
  | none => l.head?

/-- Computable lexicographic comparison on character lists, matching Python's
string ordering (compare code points elementwise, shorter prefix first). -/
def charListLe : List Char → List Char → Bool
  | [], _ => true
  | _ :: _, [] => false
  | a :: as, b :: bs => if a = b then charListLe as bs else decide (a < b)

/-- Lexicographic string comparison as Python's `sorted` uses it. -/
def strLe (a b : String) : Bool :=
  charListLe a.data b.data

/-- Models Python `sorted` on lists of strings. -/
def sortedStrings (l : List String) : List String :=
  List.insertionSort (fun a b => strLe a b = true) l

/-- Exceptions raised by the engine (`gasofo/exceptions.py`).  Payloads carry the
relevant port name, or the fully formatted message where a claim is about the
message contents.  The spec's abstract names map as follows: `DuplicatePort`
(re-wiring) is `DuplicateProviders`, `InvalidName` is `InvalidPortName`. -/
inductive GErr where
  | DuplicateProviders (port_name : String)
  | DuplicatePortDefinition (port_name : String)
  | SelfReferencingMadness (port_name : String)
  | DisconnectedPort (message : String)
  | UnknownPort (port_name : String)
  | InvalidPortName (port_name : String)
  | WiringError (message : String)
  | DomainDefinitionError (message : String)
  deriving Repr, DecidableEq

/-- A component as seen by the discovery engine: `get_needs()` and
`get_provides()` return lists of port names, `cid` models Python object
identity (the `in` checks of `discoverable.py` compare by identity), and
`flags` models the per-provided-port flags dict returned by
`get_provider_flags` (`service.py` `ProviderMetadata`).  A Python component
lacking `get_needs`/`get_provides` contributes nothing to discovery, which is
modelled by an empty `needs`/`provides` list. -/
structure Component where
  cid : Nat
  needs : List String
  provides : List String
  flags : List (String × List (String × String))
  deriving Repr, DecidableEq

/-- Models `AutoDiscoverConnections._gather_needs` (discoverable.py:96-103). -/
def gatherNeedsAux (m : List (String × List Component)) (comps : List Component) :
    List (String × List Component) :=
  comps.foldl (fun acc c => c.needs.foldl (fun acc2 port => multiInsert acc2 port c) acc) m

def gatherNeeds (comps : List Component) : List (String × List Component) :=
  gatherNeedsAux [] comps

/-- One step of `AutoDiscoverConnections._gather_provides` (discoverable.py:105-115):
raises `DuplicateProviders` if the port already has a recorded provider. -/
def providesInsert (m : List (String × Component)) (c : Component) (port : String) :
    Except GErr (List (String × Component)) :=
  if (alookup m port).isSome then
    .error (.DuplicateProviders port)
  else
    .ok (m ++ [(port, c)])

/-- Inner loop of `_gather_provides`: record each provided port of `c` in order. -/
def providesFoldPorts (c : Component) : List String → List (String × Component) →
    Except GErr (List (String × Component))
  | [], m => .ok m
  | q :: qs, m =>
    match providesInsert m c q with
    | .error e => .error e
    | .ok m1 => providesFoldPorts c qs m1

/-- Outer loop of `_gather_provides` over the component list. -/
def gatherProvidesAux : List Component → List (String × Component) →
    Except GErr (List (String × Component))
  | [], m => .ok m
  | c :: cs, m =>
    match providesFoldPorts c c.provides m with
    | .error e => .error e
    | .ok m1 => gatherProvidesAux cs m1

def gatherProvides (comps : List Component) : Except GErr (List (String × Component)) :=
  gatherProvidesAux comps []

/-- Models `assert_no_components_satisfying_themselves` (discoverable.py:117-122):
for every needed port, if its provider is among the needers, raise
`SelfReferencingMadness`. -/
def selfCheck : List (String × List Component) → List (String × Component) → Except GErr Unit
  | [], _ => .ok ()
  | (port, needers) :: rest, provides =>
    match alookup provides port with
    | some provider =>
      if provider ∈ needers then .error (.SelfReferencingMadness port)
      else selfCheck rest provides
    | none => selfCheck rest provides

/-- The state built by `AutoDiscoverConnections.__init__` (discoverable.py:60-66). -/
structure Discovery where
  components : List Component
  needs : List (String × List Component)
  provides : List (String × Component)
  deriving Repr, DecidableEq

/-- Models `AutoDiscoverConnections(components)` (discoverable.py:62-66): gather
needs, gather provides (may raise `DuplicateProviders`), then the
self-reference check (may raise `SelfReferencingMadness`). -/
def AutoDiscoverConnections (components : List Component) : Except GErr Discovery :=
  let needs := gatherNeeds components
  match gatherProvides components with
  | .error e => .error e
  | .ok provides =>
    match selfCheck needs provides with
    | .error e => .error e
    | .ok _ => .ok ⟨components, needs, provides⟩

def Discovery.get_needs (d : Discovery) : List String :=
  sortedStrings (d.needs.map Prod.fst)

def Discovery.get_provides (d : Discovery) : List String :=
  sortedStrings (d.provides.map Prod.fst)

/-- Models `unsatisfied_needs` (discoverable.py:74-76): sorted set difference of
the needs keys and the provides keys. -/
def Discovery.unsatisfied_needs (d : Discovery) : List String :=
  sortedStrings ((d.needs.map Prod.fst).filter (fun p => (alookup d.provides p).isNone))

/-- Models `satisfied_needs` (discoverable.py:78-80): sorted intersection of the
needs keys and the provides keys. -/
def Discovery.satisfied_needs (d : Discovery) : List String :=
  sortedStrings ((d.needs.map Prod.fst).filter (fun p => (alookup d.provides p).isSome))

/-- Models `get_provider` (discoverable.py:82-86). -/
def Discovery.get_provider (d : Discovery) (port_name : String) : Except GErr Component :=
  match alookup d.provides port_name with
  | some c => .ok c
  | none => .error (.UnknownPort port_name)

/-- The `DiscoveredConnection` namedtuple (discoverable.py:57). -/
structure DiscoveredConnection where
  port_name : String
  consumer : Component
  provider : Component
  deriving Repr, DecidableEq

/-- One needs-map entry's contribution to `connections()`: nothing when the
port has no provider, otherwise one connection per consumer in the needers
list. -/
def connEntry (d : Discovery) (e : String × List Component) : List DiscoveredConnection :=
  match alookup d.provides e.1 with
  | none => []
  | some provider => e.2.map (fun consumer => ⟨e.1, consumer, provider⟩)

/-- Models the `connections()` generator (discoverable.py:88-94). -/
def Discovery.connections (d : Discovery) : List DiscoveredConnection :=
  d.needs.flatMap (connEntry d)

/-- Specification-side list of the components (with multiplicity, in input order)
whose needs contain `p`; `gatherNeeds` stores exactly this under key `p`. -/
def needersOf (comps : List Component) (p : String) : List Component :=
  comps.flatMap (fun c => List.replicate (c.needs.count p) c)

/-- Specification-side list of the components (with multiplicity) whose provides
contain `p`. -/
def providersOf (comps : List Component) (p : String) : List Component :=
  comps.flatMap (fun c => List.replicate (c.provides.count p) c)

/-- Global wiring state: the `_providers` bookkeeping of every `INeed` instance
(discoverable.py:30,48), keyed by consumer identity and port name and mapping
to the provider's identity.  `set_provider` also binds the consumer's deps port
to the provider's callable in the same step (`_satisfy_need`); both effects of
that single assignment are represented by one entry here. -/
structure WireState where
  providers : List ((Nat × String) × Nat)
  deriving Repr, DecidableEq

/-- Models `INeed.set_provider` (discoverable.py:41-48).  The check raises
`DuplicateProviders` before any mutation, so an error leaves the caller's
state untouched.  `_is_compatible_provider` returns `True` for both `Service`
and `Domain` (service.py:183-184, domain.py:267-268), so the
`IncompatibleProvider` branch is unreachable and is not modelled. -/
def set_provider (consumer : Component) (port_name : String) (provider : Component)
    (st : WireState) : Except GErr WireState :=
  if (alookup st.providers (consumer.cid, port_name)).isSome then
    .error (.DuplicateProviders port_name)
  else
    .ok ⟨st.providers ++ [((consumer.cid, port_name), provider.cid)]⟩

/-- Caller-visible behaviour of one `set_provider` call: on an exception the
components' state is exactly what it was before the call. -/
def set_provider_run (consumer : Component) (port_name : String) (provider : Component)
    (st : WireState) : WireState × Option GErr :=
  match set_provider consumer port_name provider st with
  | .error e => (st, some e)
  | .ok st2 => (st2, none)

/-- Models `wire_up_discovered_connections` (discoverable.py:125-127).  Python
mutates components in place and an exception aborts the loop without rolling
back, so the state reached so far is kept alongside the error. -/
def wire_up_discovered_connections : List DiscoveredConnection → WireState →
    WireState × Option GErr
  | [], st => (st, none)
  | conn :: rest, st =>
    match set_provider conn.consumer conn.port_name conn.provider st with
    | .error e => (st, some e)
    | .ok st2 => wire_up_discovered_connections rest st2

/-- Models `auto_wire` (discoverable.py:130-137): run discovery, raise
`DisconnectedPort` naming every unsatisfied port when strict wiring was
requested, otherwise bind all discovered connections. -/
def auto_wire (components : List Component) (expect_all_ports_connected : Bool)
    (st : WireState) : WireState × Option GErr :=
  match AutoDiscoverConnections components with
  | .error e => (st, some e)
  | .ok discovered =>
    let no_matches := discovered.unsatisfied_needs
    if expect_all_ports_connected && !no_matches.isEmpty then
      (st, some (.DisconnectedPort
        ("The following ports are disconnected - " ++ String.intercalate ", " no_matches)))
    else
      wire_up_discovered_connections discovered.connections st

/-- The value stored in a port attribute slot (ports.py:48-49,59): either the
placeholder raising `DisconnectedPort` (tagged `disconnected = True`) or a
bound callable, modelled by a numeric identifier since the engine never
inspects the callable beyond `callable(func)`. -/
inductive PortFunc where
  | placeholder (port_name : String)
  | connected (func : Nat)
  deriving Repr, DecidableEq

/-- Models `PortArray` (ports.py:37-92): the `_ports` name set plus the
per-port attribute slots installed with `setattr`. -/
structure PortArray where
  ports : List String
  attrs : List (String × PortFunc)
  deriving Repr, DecidableEq

def isAsciiLowerChar (c : Char) : Bool :=
  'a' ≤ c && c ≤ 'z'

def isPortWordChar (c : Char) : Bool :=
  ('a' ≤ c && c ≤ 'z') || ('A' ≤ c && c ≤ 'Z') || ('0' ≤ c && c ≤ '9') || c = '_'

/-- Tail of the Python regex match: zero or more word characters followed by
the `$` anchor, which in Python also matches just before a single trailing
newline. -/
def matchTailWithDollar : List Char → Bool
  | [] => true
  | ['\n'] => true
  | c :: rest => isPortWordChar c && matchTailWithDollar rest

/-- Models `VALID_PORT_NAME_FORMAT.match(port_name)` (ports.py:19,88) with
Python `re` semantics: the pattern is anchored at the start by `re.match` and
ends with `$`, which matches at the end of the string or just before a
trailing newline. -/
def VALID_PORT_NAME_FORMAT_match (s : String) : Bool :=
  match s.data with
  | [] => false
  | c :: rest => isAsciiLowerChar c && matchTailWithDollar rest

/-- The spec's own name rule on a character list, written from the spec's
words: `^[a-z][A-Za-z0-9_]*$` read as an exact whole-string match (the `$`
anchor taken as absolute end of string). -/
def specCharsMatch : List Char → Bool
  | [] => false
  | c :: rest => isAsciiLowerChar c && rest.all isPortWordChar

/-- The spec's own name rule on strings, for the refinement comparison of
claim C7. -/
def specPortNameMatches (s : String) : Bool :=
  specCharsMatch s.data

/-- Models `RESERVED_PORT_NAMES` (ports.py:21-34). -/
def RESERVED_PORT_NAMES : List String :=
  ["meta", "deps", "add_port", "get_ports", "replicate", "is_disconnected_port",
   "disconnect_port", "connect_port", "get_needs", "get_provides",
   "get_interface_class", "assert_valid_port_name"]

/-- Models `PortArray.assert_valid_port_name` (ports.py:86-92). -/
def assert_valid_port_name (port_name : String) : Except GErr Unit :=
  if !(VALID_PORT_NAME_FORMAT_match port_name) then
    .error (.InvalidPortName port_name)
  else if port_name ∈ RESERVED_PORT_NAMES then
    .error (.InvalidPortName port_name)
  else
    .ok ()

/-- Models the `PortArray()` constructor (ports.py:38-39). -/
def PortArray.empty : PortArray := ⟨[], []⟩

/-- Models `PortArray.add_port` (ports.py:41-49): validate the name, reject
duplicates, record the name and install the disconnected placeholder. -/
def PortArray.add_port (a : PortArray) (port_name : String) : Except GErr PortArray :=
  match assert_valid_port_name port_name with
  | .error e => .error e
  | .ok _ =>
    if port_name ∈ a.ports then
      .error (.DuplicatePortDefinition port_name)
    else
      .ok ⟨a.ports ++ [port_name], aset a.attrs port_name (.placeholder port_name)⟩

def PortArray.get_ports (a : PortArray) : List String := a.ports

/-- Models `PortArray.connect_port` (ports.py:54-59).  Every modelled func is a
callable, so the `WiringError` branch for non-callables is unreachable here. -/
def PortArray.connect_port (a : PortArray) (port_name : String) (func : Nat) :
    Except GErr PortArray :=
  if port_name ∈ a.ports then
    .ok ⟨a.ports, aset a.attrs port_name (.connected func)⟩
  else
    .error (.UnknownPort port_name)

/-- Models `PortArray.disconnect_port` (ports.py:61-65). -/
def PortArray.disconnect_port (a : PortArray) (port_name : String) : Except GErr PortArray :=
  if port_name ∈ a.ports then
    .ok ⟨a.ports, aset a.attrs port_name (.placeholder port_name)⟩
  else
    .error (.UnknownPort port_name)

/-- Models `PortArray.is_disconnected_port` (ports.py:73-77): true exactly when
the slot still holds the placeholder carrying the `disconnected` tag. -/
def PortArray.is_disconnected_port (a : PortArray) (port_name : String) : Except GErr Bool :=
  if port_name ∈ a.ports then
    .ok (match alookup a.attrs port_name with
      | some (.placeholder _) => true
      | _ => false)
  else
    .error (.UnknownPort port_name)

/-- The `for port in ...: new_array.add_port(port)` loop shared by
`PortArray.replicate` (ports.py:79-84) and the domain deps construction
(domain.py:142-144). -/
def addPorts : List String → PortArray → Except GErr PortArray
  | [], a => .ok a
  | p :: ps, a =>
    match a.add_port p with
    | .error e => .error e
    | .ok a2 => addPorts ps a2

/-- Models `PortArray.replicate` (ports.py:79-84), the spec's
`cloneDeclarationOnly`: a fresh array receiving `add_port` for each declared
name of the source.  The source array is read through `get_ports` only and is
never mutated. -/
def PortArray.replicate (another : PortArray) : Except GErr PortArray :=
  addPorts another.get_ports PortArray.empty

/-- Models `ShadowPortArray` state (ports.py:99-104): the ignored-name set, the
underlying arrays (identified by their position in the constructor argument)
and the gathered `_ports` dict mapping each non-ignored declared name to the
arrays declaring it. -/
structure ShadowPortArray where
  ignored_ports : List String
  children : List PortArray
  portsMap : List (String × List Nat)
  deriving Repr, DecidableEq

/-- Models `ShadowPortArray._gather_ports` (ports.py:125-133). -/
def gatherShadowPorts (arrays : List PortArray) (ignored : List String) :
    List (String × List Nat) :=
  arrays.enum.foldl
    (fun m ia => ia.2.get_ports.foldl
      (fun m2 port => if port ∈ ignored then m2 else multiInsert m2 port ia.1) m)
    []

/-- Models the `ShadowPortArray` constructor (ports.py:101-104). -/
def ShadowPortArray.make (arrays : List PortArray) (ignore_ports : List String) :
    ShadowPortArray :=
  ⟨ignore_ports, arrays, gatherShadowPorts arrays ignore_ports⟩

/-- Propagation loop shared by shadow connect and disconnect: apply `op` to the
children at the given positions. -/
def shadowPropagate (op : PortArray → Except GErr PortArray) :
    List Nat → List PortArray → Except GErr (List PortArray)
  | [], cs => .ok cs
  | i :: rest, cs =>
    match cs.get? i with
    | none => shadowPropagate op rest cs
    | some a =>
      match op a with
      | .error e => .error e
      | .ok a2 => shadowPropagate op rest (cs.set i a2)

/-- Models `ShadowPortArray.connect_port` (ports.py:109-116): unknown (or
ignored, hence never gathered) names raise `UnknownPort` before any child is
touched. -/
def ShadowPortArray.connect_port (s : ShadowPortArray) (port_name : String) (func : Nat) :
    Except GErr ShadowPortArray :=
  match alookup s.portsMap port_name with
  | none => .error (.UnknownPort port_name)
  | some idxs =>
    match shadowPropagate (fun a => a.connect_port port_name func) idxs s.children with
    | .error e => .error e
    | .ok cs => .ok ⟨s.ignored_ports, cs, s.portsMap⟩

/-- Models `ShadowPortArray.disconnect_port` (ports.py:118-123). -/
def ShadowPortArray.disconnect_port (s : ShadowPortArray) (port_name : String) :
    Except GErr ShadowPortArray :=
  match alookup s.portsMap port_name with
  | none => .error (.UnknownPort port_name)
  | some idxs =>
    match shadowPropagate (fun a => a.disconnect_port port_name) idxs s.children with
    | .error e => .error e
    | .ok cs => .ok ⟨s.ignored_ports, cs, s.portsMap⟩

/-- Models `Domain.__init__`'s deps proxy (domain.py:249-253): a
`ShadowPortArray` over the children's deps arrays ignoring every internally
satisfied need. -/
def Domain_init_deps (arrays : List PortArray) (discovered : Discovery) : ShadowPortArray :=
  ShadowPortArray.make arrays discovered.satisfied_needs

/-- Models `ProviderMetadata.get_provider_flags` (service.py:66-70): the flags
dict for a provided port, or `UnknownPort`.  Python returns `.copy()` of the
stored dict, so the caller's later mutations never reach the component; in
this pure model the copy is the identity and the component value is immutable
by construction. -/
def Component.get_provider_flags (c : Component) (port_name : String) :
    Except GErr (List (String × String)) :=
  match alookup c.flags port_name with
  | some f => .ok f
  | none => .error (.UnknownPort port_name)

/-- Models `dict.pop(key, None)` on a flags dict: the entry for `key` is
removed, every other entry is kept. -/
def dictPop (m : List (String × String)) (k : String) : List (String × String) :=
  m.filter (fun e => decide (e.1 ≠ k))

/-- The state a successful `DomainMetaclass.__new__` leaves on the new class:
the child classes, the `deps` port array of unsatisfied needs
(domain.py:141-144), and the provider metadata registered for each published
port (domain.py:157-172). -/
structure DomainClass where
  children : List Component
  deps : PortArray
  meta_providers : List (String × Component)
  meta_flags : List (String × List (String × String))
  deriving Repr, DecidableEq

/-- Models the publication loop of `DomainMetaclass.__new__` (domain.py:157-172):
for each declared provides port look up its provider, inherit its flags with
the `with_name` rename flag stripped, and register it (duplicate registration
raises `DuplicateProviders`, service.py:72-77). -/
def registerDomainProviders (d : Discovery) :
    List String → List (String × Component) → List (String × List (String × String)) →
    Except GErr (List (String × Component) × List (String × List (String × String)))
  | [], provs, flags => .ok (provs, flags)
  | port :: rest, provs, flags =>
    match d.get_provider port with
    | .error e => .error e
    | .ok provider =>
      match provider.get_provider_flags port with
      | .error e => .error e
      | .ok inherited =>
        if (alookup provs port).isSome then
          .error (.DuplicateProviders port)
        else
          registerDomainProviders d rest (provs ++ [(port, provider)])
            (flags ++ [(port, dictPop inherited "with_name")])

/-- Models `DomainMetaclass.__new__` (domain.py:109-174) for an explicit
`__provides__` list: run discovery over the child classes, validate the
declared provides against the discovered ones, expose every unsatisfied need
as a `deps` port, then register the published providers.  The template-func
compatibility step (domain.py:146-155) only records documentation templates
and can raise `InconsistentInterface`; it never alters the `deps` ports or the
registered flags, so it is omitted here — every class definition Python
accepts is accepted by this model with the same resulting state.  The
class-kind checks on `__services__` entries and the `AutoProvide` variant of
`__provides__` are likewise outside the modelled claims. -/
def DomainMetaclass_new (services : List Component) (provides : List String) :
    Except GErr DomainClass :=
  match AutoDiscoverConnections services with
  | .error e => .error e
  | .ok discovered =>
    match provides.find? (fun p => decide (p ∉ discovered.get_provides)) with
    | some p => .error (.DomainDefinitionError p)
    | none =>
      match addPorts discovered.unsatisfied_needs PortArray.empty with
      | .error e => .error e
      | .ok deps =>
        match registerDomainProviders discovered provides [] [] with
        | .error e => .error e
        | .ok (provs, flags) => .ok ⟨services, deps, provs, flags⟩

mutual
/-- Python AST nodes relevant to `DepCallFinder` (dep_parser.py:59-84), as a
mutual inductive so that the visitor recursion is structural.  `name`,
`strLit`, `attribute` and `call` mirror `ast.Name`, string `ast.Constant`,
`ast.Attribute` and `ast.Call` (whose keyword values are listed in `kwargs`);
`other` stands for any other node kind, whose child expressions the generic
visitor walks.  Comments never appear: `ast.parse` discards them before the
visitor runs. -/
inductive PyExpr where
  | name (id : String)
  | strLit (text : String)
  | attribute (value : PyExpr) (attr : String)
  | call (func : PyExpr) (args : PyExprList) (kwargs : PyExprList)
  | other (children : PyExprList)

inductive PyExprList where
  | nil
  | cons (head : PyExpr) (tail : PyExprList)

end

/-- Models `extract_call_attribute_chain` (dep_parser.py:46-56): `none` is the
`FoundChainedCall` escape for a base that is neither a `Name` nor an
`Attribute`. -/
def extract_call_attribute_chain : PyExpr → Option (List String)
  | .attribute (.name id) attr => some [id, attr]
  | .attribute value attr =>
    match extract_call_attribute_chain value with
    | some l => some (l ++ [attr])
    | none => none
  | _ => none

mutual
/-- Models the set of names collected by `DepCallFinder.visit` over an
expression (dep_parser.py:59-84): a call whose func is an attribute chain
rooted exactly at `self.deps` contributes its final attribute; on a chained
call the func attribute is walked generically; a call func that is not an
attribute is skipped entirely (only args and keywords are visited, as in the
Python visitor); every other node kind is walked generically. -/
def pyVisit : PyExpr → List String
  | .name _ => []
  | .strLit _ => []
  | .attribute value _ => pyVisit value
  | .other children => pyVisitList children
  | .call (.attribute value attr) args kwargs =>
    (match extract_call_attribute_chain (.attribute value attr) with
     | some chain =>
       if String.intercalate "." chain.dropLast = "self.deps" then
         [(chain.getLast?).getD ""]
       else []
     | none => pyVisit value)
    ++ pyVisitList args ++ pyVisitList kwargs
  | .call _ args kwargs => pyVisitList args ++ pyVisitList kwargs

/-- Generic walk of a child list, accumulating in visit order. -/
def pyVisitList : PyExprList → List String
  | .nil => []
  | .cons e rest => pyVisit e ++ pyVisitList rest

end

/-- Models `parse_deps_used_new` (dep_parser.py:30-36) on an already parsed
tree: the used-set is what the visitor collects (set semantics: membership in
the returned list). -/
def parse_deps_used_new (tree : PyExpr) : List String :=
  pyVisit tree

mutual
/-- An identifier occurrence of `n` in the tree: as a `Name` id or an
`Attribute` attr.  Text inside string literals is not an identifier
occurrence, and comments are absent from ASTs altogether, so a name whose only
occurrences are inside comments or string literals has no identifier
occurrence. -/
def mentionsId : PyExpr → String → Bool
  | .name id, n => decide (id = n)
  | .strLit _, _ => false
  | .attribute value attr, n => decide (attr = n) || mentionsId value n
  | .call func args kwargs, n =>
    mentionsId func n || mentionsIdList args n || mentionsIdList kwargs n
  | .other children, n => mentionsIdList children n

def mentionsIdList : PyExprList → String → Bool
  | .nil, _ => false
  | .cons e rest, n => mentionsId e n || mentionsIdList rest n

end

/-- Fixture mirroring the spec's worked example: needs `b1` and `x`, provides `a1`. -/
def compA : Component := ⟨0, ["b1", "x"], ["a1"], [("a1", [])]⟩

/-- Fixture: needs `c1`, provides `b1` under a rename flag plus another flag. -/
def compB : Component := ⟨1, ["c1"], ["b1"], [("b1", [("with_name", "orig"), ("web", "yes")])]⟩

/-- Fixture: provides `c1` with no needs. -/
def compC : Component := ⟨2, [], ["c1"], [("c1", [])]⟩

/-- Fixture: needs `x` only. -/
def compD : Component := ⟨3, ["x"], [], []⟩

/-- Fixture: provides `x` only. -/
def compX : Component := ⟨4, [], ["x"], []⟩

/-- Fixture: needs and provides the same port `p`. -/
def compSelf : Component := ⟨5, ["p"], ["p"], []⟩

/-- Fixture port array with one bound and one unbound port. -/
def arrFixture : PortArray :=
  ⟨["foo", "bar"], [("foo", .connected 7), ("bar", .placeholder "bar")]⟩

/-- Fixture port array declaring `x` and `y`, both unbound. -/
def arrXY : PortArray :=
  ⟨["x", "y"], [("x", .placeholder "x"), ("y", .placeholder "y")]⟩

/-- Fixture tree: one genuine `self.deps.yes()` call and one string literal
whose text mentions `self.deps.secret()`. -/
def treeFixture : PyExpr :=
  .other (.cons (.call (.attribute (.attribute (.name "self") "deps") "yes") .nil .nil)
    (.cons (.strLit "self.deps.secret()") .nil))

/-- Fixture wiring state in which component 1 already has a provider for `c1`. -/
def wStBound : WireState := ⟨[((1, "c1"), 2)]⟩

/-- The domain class produced by `DomainMetaclass_new [compA, compB] ["b1"]`. -/
def wDC : DomainClass :=
  ⟨[compA, compB],
   ⟨["c1", "x"], [("c1", .placeholder "c1"), ("x", .placeholder "x")]⟩,
   [("b1", compB)],
   [("b1", [("web", "yes")])]⟩

/-- The replica produced by `PortArray.replicate arrFixture`. -/
def wRep : PortArray :=
  ⟨["foo", "bar"], [("foo", .placeholder "foo"), ("bar", .placeholder "bar")]⟩

/-- The discovery result for `[compA, compB, compC]`. -/
def wDisc : Discovery :=
  ⟨[compA, compB, compC],
   [("b1", [compA]), ("x", [compA]), ("c1", [compB])],
   [("a1", compA), ("b1", compB), ("c1", compC)]⟩

/-- The discovery result for `[compB, compC]`, in which every need is satisfied. -/
def wDisc2 : Discovery :=
  ⟨[compB, compC], [("c1", [compB])], [("b1", compB), ("c1", compC)]⟩

/-- The discovery result for `[compA]` alone: both needs are unsatisfied. -/
def wDisc3 : Discovery :=
  ⟨[compA], [("b1", [compA]), ("x", [compA])], [("a1", compA)]⟩

/-! Lemmas about the association-list model of Python dicts. -/

theorem alookup_append_some {κ ν : Type} [DecidableEq κ] {m1 : List (κ × ν)}
    (m2 : List (κ × ν)) {k : κ} {v : ν} (h : alookup m1 k = some v) :
    alookup (m1 ++ m2) k = some v := by
  induction m1 with
  | nil => simp [alookup] at h
  | cons e rest ih =>
    by_cases he : e.1 = k
    · simp only [alookup, he, if_pos] at h ⊢
      exact h
    · simp [alookup, he] at h ⊢
      exact ih h

theorem alookup_append_none {κ ν : Type} [DecidableEq κ] {m1 : List (κ × ν)}
    (m2 : List (κ × ν)) {k : κ} (h : alookup m1 k = none) :
    alookup (m1 ++ m2) k = alookup m2 k := by
  induction m1 with
  | nil => rfl
  | cons e rest ih =>
    by_cases he : e.1 = k
    · simp [alookup, he] at h
    · simp only [alookup, he, if_neg] at h
      simp only [List.cons_append, alookup, he, if_neg]
      exact ih h

theorem alookup_isSome_iff {κ ν : Type} [DecidableEq κ] (m : List (κ × ν)) (k : κ) :
    (alookup m k).isSome ↔ k ∈ m.map Prod.fst := by
  induction m with
  | nil => simp [alookup]
  | cons e rest ih =>
    by_cases he : e.1 = k
    · simp [alookup, he]
    · have : ¬(k = e.1) := fun hk => he hk.symm
      simp [alookup, he, this, ih]

theorem alookup_map_upd_append {κ : Type} {ν : Type} [DecidableEq κ]
    (m : List (κ × List ν)) (k k' : κ) (v : ν) :
    alookup (m.map (fun e => if e.1 = k then (e.1, e.2 ++ [v]) else e)) k' =
      if k' = k then (alookup m k).map (fun l => l ++ [v]) else alookup m k' := by
  induction m with
  | nil => by_cases h : k' = k <;> simp [alookup, h]
  | cons e rest ih =>
    by_cases hek : e.1 = k
    · subst hek
      by_cases hk' : k' = e.1
      · subst hk'
        simp [alookup]
      · have h2 : ¬(e.1 = k') := fun hh => hk' hh.symm
        simp [alookup, h2, hk', ih]
    · by_cases hk' : e.1 = k'
      · subst hk'
        simp [alookup, hek, ih]
      · simp [alookup, hek, hk', ih]

theorem alookup_map_upd_const {κ ν : Type} [DecidableEq κ]
    (m : List (κ × ν)) (k k' : κ) (v : ν) :
    alookup (m.map (fun e => if e.1 = k then (e.1, v) else e)) k' =
      if k' = k then (alookup m k).map (fun _ => v) else alookup m k' := by
  induction m with
  | nil => by_cases h : k' = k <;> simp [alookup, h]
  | cons e rest ih =>
    by_cases hek : e.1 = k
    · subst hek
      by_cases hk' : k' = e.1
      · subst hk'
        simp [alookup]
      · have h2 : ¬(e.1 = k') := fun hh => hk' hh.symm
        simp [alookup, h2, hk', ih]
    · by_cases hk' : e.1 = k'
      · subst hk'
        simp [alookup, hek, ih]
      · simp [alookup, hek, hk', ih]

theorem optApp_nil {ν : Type} (o : Option (List ν)) : optApp o [] = o := by
  cases o <;> simp [optApp]

theorem optApp_assoc {ν : Type} (o : Option (List ν)) (l1 l2 : List ν) :
    optApp (optApp o l1) l2 = optApp o (l1 ++ l2) := by
  cases o <;> cases l1 <;> cases l2 <;> simp [optApp]

theorem multiInsert_alookup {κ ν : Type} [DecidableEq κ]
    (m : List (κ × List ν)) (k k' : κ) (v : ν) :
    alookup (multiInsert m k v) k' = optApp (alookup m k') (if k' = k then [v] else []) := by
  unfold multiInsert
  by_cases hs : (alookup m k).isSome
  · simp only [hs, if_true]
    rw [alookup_map_upd_append]
    by_cases hk : k' = k
    · subst hk
      obtain ⟨l, hl⟩ := Option.isSome_iff_exists.mp hs
      simp [hl, optApp]
    · simp [hk, optApp_nil]
  · rw [if_neg hs]
    have hnone : alookup m k = none := Option.not_isSome_iff_eq_none.mp hs
    by_cases hk : k' = k
    · subst hk
      rw [alookup_append_none _ hnone]
      simp [alookup, optApp, hnone]
    · cases ho : alookup m k' with
      | some l =>
        rw [alookup_append_some _ ho]
        simp [hk, optApp]
      | none =>
        rw [alookup_append_none _ ho]
        have h2 : ¬(k = k') := fun hh => hk hh.symm
        simp [alookup, h2, hk, optApp]

theorem aset_alookup {κ ν : Type} [DecidableEq κ] (m : List (κ × ν)) (k k' : κ) (v : ν) :
    alookup (aset m k v) k' = if k' = k then some v else alookup m k' := by
  unfold aset
  by_cases hs : (alookup m k).isSome
  · simp only [hs, if_true]
    rw [alookup_map_upd_const]
    by_cases hk : k' = k
    · subst hk
      obtain ⟨w, hw⟩ := Option.isSome_iff_exists.mp hs
      simp [hw]
    · simp [hk]
  · rw [if_neg hs]
    have hnone : alookup m k = none := Option.not_isSome_iff_eq_none.mp hs
    by_cases hk : k' = k
    · subst hk
      rw [alookup_append_none _ hnone]
      simp [alookup]
    · cases ho : alookup m k' with
      | some l => rw [alookup_append_some _ ho]; simp [hk]
      | none =>
        rw [alookup_append_none _ ho]
        have h2 : ¬(k = k') := fun hh => hk hh.symm
        simp [alookup, h2, hk]

theorem map_fst_upd_append {κ ν : Type} [DecidableEq κ]
    (m : List (κ × List ν)) (k : κ) (v : ν) :
    (m.map (fun e => if e.1 = k then (e.1, e.2 ++ [v]) else e)).map Prod.fst =
      m.map Prod.fst := by
  induction m with
  | nil => simp
  | cons e rest ih =>
    simp only [List.map_cons, List.cons.injEq]
    constructor
    · by_cases hek : e.1 = k <;> simp [hek]
    · exact ih

theorem multiInsert_keys {κ ν : Type} [DecidableEq κ]
    (m : List (κ × List ν)) (k : κ) (v : ν) :
    (multiInsert m k v).map Prod.fst =
      if (alookup m k).isSome then m.map Prod.fst else m.map Prod.fst ++ [k] := by
  unfold multiInsert
  by_cases hs : (alookup m k).isSome
  · simp only [hs, if_true]
    exact map_fst_upd_append m k v
  · simp [hs]

theorem multiInsert_keys_nodup {κ ν : Type} [DecidableEq κ]
    (m : List (κ × List ν)) (k : κ) (v : ν) (h : (m.map Prod.fst).Nodup) :
    ((multiInsert m k v).map Prod.fst).Nodup := by
  rw [multiInsert_keys]
  by_cases hs : (alookup m k).isSome
  · simpa [hs] using h
  · have hk : k ∉ m.map Prod.fst := fun hmem =>
      hs ((alookup_isSome_iff m k).mpr hmem)
    rw [if_neg hs]
    rw [List.nodup_append]
    refine ⟨h, List.nodup_singleton k, ?_⟩
    intro a ha hb
    simp only [List.mem_singleton] at hb
    exact hk (hb ▸ ha)

theorem alookup_append_single_ne {κ ν : Type} [DecidableEq κ]
    (m : List (κ × ν)) {k q : κ} (v : ν) (h : ¬(q = k)) :
    alookup (m ++ [(q, v)]) k = alookup m k := by
  cases ho : alookup m k with
  | some w => exact alookup_append_some _ ho
  | none =>
    rw [alookup_append_none _ ho]
    simp [alookup, h]

theorem alookup_of_mem_of_keys_nodup {κ ν : Type} [DecidableEq κ]
    {m : List (κ × ν)} (h : (m.map Prod.fst).Nodup) {k : κ} {v : ν}
    (hm : (k, v) ∈ m) : alookup m k = some v := by
  induction m with
  | nil => cases hm
  | cons e rest ih =>
    rw [List.map_cons, List.nodup_cons] at h
    rcases List.mem_cons.mp hm with hh | ht
    · rw [← hh]
      simp [alookup]
    · have hk : k ∈ rest.map Prod.fst := List.mem_map.mpr ⟨(k, v), ht, rfl⟩
      have hne : ¬(e.1 = k) := fun he => h.1 (he ▸ hk)
      simp only [alookup, hne, if_neg]
      exact ih h.2 ht

theorem mem_of_alookup_eq_some {κ ν : Type} [DecidableEq κ]
    {m : List (κ × ν)} {k : κ} {v : ν} (h : alookup m k = some v) : (k, v) ∈ m := by
  induction m with
  | nil => simp [alookup] at h
  | cons e rest ih =>
    by_cases he : e.1 = k
    · simp only [alookup, he, if_pos, Option.some.injEq] at h
      have hev : (k, v) = e := by
        obtain ⟨a, b⟩ := e
        simp only at he h
        rw [← he, ← h]
      rw [hev]
      exact List.mem_cons_self _ _
    · simp only [alookup, he, if_neg] at h
      exact List.mem_cons_of_mem _ (ih h)

/-! Lemmas characterising the needs map built by `_gather_needs`. -/

theorem needs_inner_fold_alookup (c : Component) (qs : List String)
    (m : List (String × List Component)) (p : String) :
    alookup (qs.foldl (fun acc q => multiInsert acc q c) m) p =
      optApp (alookup m p) (List.replicate (qs.count p) c) := by
  induction qs generalizing m with
  | nil => simp [optApp_nil]
  | cons q qs ih =>
    rw [List.foldl_cons, ih (multiInsert m q c), multiInsert_alookup, optApp_assoc]
    congr 1
    by_cases hpq : p = q
    · subst hpq
      simp [List.count_cons, List.replicate_succ]
    · have hqp : ¬((q == p) = true) := by
        rw [beq_iff_eq]
        exact fun h => hpq h.symm
      simp [List.count_cons, hpq, hqp]

theorem gatherNeedsAux_alookup (comps : List Component)
    (m : List (String × List Component)) (p : String) :
    alookup (gatherNeedsAux m comps) p = optApp (alookup m p) (needersOf comps p) := by
  induction comps generalizing m with
  | nil => simp [gatherNeedsAux, needersOf, optApp_nil]
  | cons c cs ih =>
    show alookup (gatherNeedsAux (c.needs.foldl (fun acc q => multiInsert acc q c) m) cs) p = _
    rw [ih, needs_inner_fold_alookup, optApp_assoc]
    simp only [needersOf, List.flatMap_cons]

theorem gatherNeeds_alookup (comps : List Component) (p : String) :
    alookup (gatherNeeds comps) p =
      if needersOf comps p = [] then none else some (needersOf comps p) := by
  rw [gatherNeeds, gatherNeedsAux_alookup]
  cases h : needersOf comps p with
  | nil => simp [alookup, optApp]
  | cons a l => simp [alookup, optApp]

theorem mem_needersOf {c : Component} {comps : List Component} {p : String} :
    c ∈ needersOf comps p ↔ c ∈ comps ∧ p ∈ c.needs := by
  unfold needersOf
  rw [List.mem_flatMap]
  constructor
  · rintro ⟨a, ha, hmem⟩
    obtain ⟨hcnt, rfl⟩ := List.mem_replicate.mp hmem
    exact ⟨ha, List.count_pos_iff.mp (Nat.pos_of_ne_zero hcnt)⟩
  · rintro ⟨hc, hp⟩
    refine ⟨c, hc, List.mem_replicate.mpr ⟨?_, rfl⟩⟩
    exact Nat.pos_iff_ne_zero.mp (List.count_pos_iff.mpr hp)

theorem needersOf_eq_nil_iff {comps : List Component} {p : String} :
    needersOf comps p = [] ↔ ¬∃ c ∈ comps, p ∈ c.needs := by
  rw [List.eq_nil_iff_forall_not_mem]
  constructor
  · rintro h ⟨c, hc, hp⟩
    exact h c (mem_needersOf.mpr ⟨hc, hp⟩)
  · intro h c hmem
    obtain ⟨hc, hp⟩ := mem_needersOf.mp hmem
    exact h ⟨c, hc, hp⟩

theorem gatherNeeds_keys_isSome (comps : List Component) (p : String) :
    (alookup (gatherNeeds comps) p).isSome ↔ ∃ c ∈ comps, p ∈ c.needs := by
  rw [gatherNeeds_alookup]
  by_cases h : needersOf comps p = []
  · simp [h, needersOf_eq_nil_iff.mp h]
  · simp only [h, if_neg, not_false_iff, Option.isSome_some, true_iff]
    by_contra hn
    exact h (needersOf_eq_nil_iff.mpr hn)

theorem needs_inner_fold_keys_nodup (c : Component) (qs : List String)
    (m : List (String × List Component)) (h : (m.map Prod.fst).Nodup) :
    (((qs.foldl (fun acc q => multiInsert acc q c) m)).map Prod.fst).Nodup := by
  induction qs generalizing m with
  | nil => exact h
  | cons q qs ih =>
    rw [List.foldl_cons]
    exact ih _ (multiInsert_keys_nodup _ _ _ h)

theorem gatherNeeds_keys_nodup (comps : List Component) :
    ((gatherNeeds comps).map Prod.fst).Nodup := by
  have main : ∀ (cs : List Component) (m : List (String × List Component)),
      (m.map Prod.fst).Nodup → ((gatherNeedsAux m cs).map Prod.fst).Nodup := by
    intro cs
    induction cs with
    | nil => intro m h; exact h
    | cons c cs ih =>
      intro m h
      show ((gatherNeedsAux (c.needs.foldl (fun acc q => multiInsert acc q c) m) cs).map
        Prod.fst).Nodup
      exact ih _ (needs_inner_fold_keys_nodup c c.needs m h)
  exact main comps [] (by simp)

/-! Lemmas characterising the provides map built by `_gather_provides`. -/

theorem firstProv_assoc {ν : Type} (o : Option ν) (l1 l2 : List ν) :
    firstProv (firstProv o l1) l2 = firstProv o (l1 ++ l2) := by
  cases o <;> cases l1 <;> simp [firstProv]

theorem mem_providersOf {c : Component} {comps : List Component} {p : String} :
    c ∈ providersOf comps p ↔ c ∈ comps ∧ p ∈ c.provides := by
  unfold providersOf
  rw [List.mem_flatMap]
  constructor
  · rintro ⟨a, ha, hmem⟩
    obtain ⟨hcnt, rfl⟩ := List.mem_replicate.mp hmem
    exact ⟨ha, List.count_pos_iff.mp (Nat.pos_of_ne_zero hcnt)⟩
  · rintro ⟨hc, hp⟩
    refine ⟨c, hc, List.mem_replicate.mpr ⟨?_, rfl⟩⟩
    exact Nat.pos_iff_ne_zero.mp (List.count_pos_iff.mpr hp)

theorem providersOf_eq_nil_iff {comps : List Component} {p : String} :
    providersOf comps p = [] ↔ ¬∃ c ∈ comps, p ∈ c.provides := by
  rw [List.eq_nil_iff_forall_not_mem]
  constructor
  · rintro h ⟨c, hc, hp⟩
    exact h c (mem_providersOf.mpr ⟨hc, hp⟩)
  · intro h c hmem
    obtain ⟨hc, hp⟩ := mem_providersOf.mp hmem
    exact h ⟨c, hc, hp⟩

theorem providesFoldPorts_ok (c : Component) (qs : List String)
    {m m' : List (String × Component)}
    (h : providesFoldPorts c qs m = .ok m') (p : String) :
    alookup m' p = firstProv (alookup m p) (List.replicate (qs.count p) c) ∧
      ((alookup m p).isSome → qs.count p = 0) ∧ qs.count p ≤ 1 := by
  induction qs generalizing m with
  | nil =>
    simp only [providesFoldPorts, Except.ok.injEq] at h
    subst h
    refine ⟨?_, fun _ => by simp, by simp⟩
    cases ho : alookup m p <;> simp [firstProv]
  | cons q qs ih =>
    simp only [providesFoldPorts] at h
    cases hins : providesInsert m c q with
    | error e => rw [hins] at h; cases h
    | ok m1 =>
      rw [hins] at h
      unfold providesInsert at hins
      by_cases hq : (alookup m q).isSome
      · rw [if_pos hq] at hins; cases hins
      · rw [if_neg hq] at hins
        have hm1 : m1 = m ++ [(q, c)] := (Except.ok.inj hins).symm
        subst hm1
        obtain ⟨ih1, ih2, ih3⟩ := ih h
        have hmq : alookup m q = none := Option.not_isSome_iff_eq_none.mp hq
        by_cases hpq : p = q
        · subst hpq
          have happ : alookup (m ++ [(p, c)]) p = some c := by
            rw [alookup_append_none _ hmq]
            simp [alookup]
          rw [happ] at ih1 ih2
          have hcnt0 : qs.count p = 0 := ih2 (by simp)
          refine ⟨?_, ?_, ?_⟩
          · rw [ih1, hmq, hcnt0]
            simp [firstProv, List.count_cons, List.replicate_succ]
          · intro hsome
            rw [hmq] at hsome
            simp at hsome
          · simp [List.count_cons, hcnt0]
        · have happ : alookup (m ++ [(q, c)]) p = alookup m p :=
            alookup_append_single_ne m c (fun hh => hpq hh.symm)
          rw [happ] at ih1 ih2
          have hcnt : (q :: qs).count p = qs.count p := by
            have hne : ¬((q == p) = true) := by
              rw [beq_iff_eq]
              exact fun hh => hpq hh.symm
            simp [List.count_cons, hne]
          rw [hcnt]
          exact ⟨ih1, ih2, ih3⟩

theorem gatherProvidesAux_ok (comps : List Component)
    {m m' : List (String × Component)}
    (h : gatherProvidesAux comps m = .ok m') (p : String) :
    alookup m' p = firstProv (alookup m p) (providersOf comps p) ∧
      ((alookup m p).isSome → providersOf comps p = []) ∧
      (providersOf comps p).length ≤ 1 := by
  induction comps generalizing m with
  | nil =>
    simp only [gatherProvidesAux, Except.ok.injEq] at h
    subst h
    refine ⟨?_, fun _ => by simp [providersOf], by simp [providersOf]⟩
    cases ho : alookup m p <;> simp [firstProv, providersOf]
  | cons c cs ih =>
    simp only [gatherProvidesAux] at h
    cases hfold : providesFoldPorts c c.provides m with
    | error e => rw [hfold] at h; cases h
    | ok m1 =>
      rw [hfold] at h
      obtain ⟨f1, f2, f3⟩ := providesFoldPorts_ok c c.provides hfold p
      obtain ⟨ih1, ih2, ih3⟩ := ih h
      have hsplit : providersOf (c :: cs) p =
          List.replicate (c.provides.count p) c ++ providersOf cs p := by
        simp only [providersOf, List.flatMap_cons]
      refine ⟨?_, ?_, ?_⟩
      · rw [ih1, f1, firstProv_assoc, hsplit]
      · intro hsome
        have hc0 := f2 hsome
        have hm1 : (alookup m1 p).isSome := by
          rw [f1, hc0]
          obtain ⟨w, hw⟩ := Option.isSome_iff_exists.mp hsome
          rw [hw]
          simp [firstProv]
        rw [hsplit, hc0, ih2 hm1]
        simp
      · rw [hsplit, List.length_append, List.length_replicate]
        by_cases hc0 : c.provides.count p = 0
        · simpa [hc0] using ih3
        · have hc1 : c.provides.count p = 1 := Nat.le_antisymm f3 (Nat.one_le_iff_ne_zero.mpr hc0)
          have hm1some : (alookup m1 p).isSome := by
            rw [f1]
            cases hmp : alookup m p with
            | some w => simp [firstProv]
            | none => simp [firstProv, hc1]
          have := ih2 hm1some
          rw [this]
          simp [hc1]

theorem gatherProvides_ok_alookup {comps : List Component}
    {m : List (String × Component)} (h : gatherProvides comps = .ok m) (p : String) :
    alookup m p = (providersOf comps p).head? ∧ (providersOf comps p).length ≤ 1 := by
  obtain ⟨h1, _, h3⟩ := gatherProvidesAux_ok comps h p
  refine ⟨?_, h3⟩
  rw [h1]
  simp [alookup, firstProv]

theorem provides_alookup_iff {comps : List Component}
    {m : List (String × Component)} (h : gatherProvides comps = .ok m)
    (p : String) (c : Component) :
    alookup m p = some c ↔ c ∈ comps ∧ p ∈ c.provides := by
  obtain ⟨h1, h3⟩ := gatherProvides_ok_alookup h p
  rw [h1]
  constructor
  · intro hh
    exact mem_providersOf.mp (List.mem_of_mem_head? hh)
  · intro hh
    have hc : c ∈ providersOf comps p := mem_providersOf.mpr hh
    cases hl : providersOf comps p with
    | nil => rw [hl] at hc; cases hc
    | cons a l =>
      rw [hl] at hc h3
      simp only [List.length_cons] at h3
      have hl0 : l = [] := List.length_eq_zero.mp (by omega)
      subst hl0
      simp only [List.mem_singleton] at hc
      subst hc
      rfl

theorem needersOf_nodup {comps : List Component} {p : String}
    (hcomps : comps.Nodup) (hneeds : ∀ c ∈ comps, c.needs.Nodup) :
    (needersOf comps p).Nodup := by
  unfold needersOf
  rw [List.nodup_flatMap]
  constructor
  · intro c hcmem
    rw [List.nodup_replicate]
    exact (List.nodup_iff_count_le_one.mp (hneeds c hcmem)) p
  · refine List.Pairwise.imp ?_ hcomps
    intro a b hne x hxa hxb
    obtain ⟨_, hxa2⟩ := List.mem_replicate.mp hxa
    obtain ⟨_, hxb2⟩ := List.mem_replicate.mp hxb
    exact hne (hxa2 ▸ hxb2)

theorem provides_isSome_iff {comps : List Component}
    {m : List (String × Component)} (h : gatherProvides comps = .ok m) (p : String) :
    (alookup m p).isSome ↔ ∃ c ∈ comps, p ∈ c.provides := by
  obtain ⟨h1, _⟩ := gatherProvides_ok_alookup h p
  rw [h1]
  cases hl : providersOf comps p with
  | nil =>
    simp only [List.head?_nil, Option.isSome_none, Bool.false_eq_true, false_iff]
    exact providersOf_eq_nil_iff.mp hl
  | cons a l =>
    simp only [List.head?_cons, Option.isSome_some, true_iff]
    have : a ∈ providersOf comps p := by
      rw [hl]
      exact List.mem_cons_self _ _
    obtain ⟨hc, hp⟩ := mem_providersOf.mp this
    exact ⟨a, hc, hp⟩

/-! Lemmas about the assembled discovery result. -/

theorem AutoDiscoverConnections_ok {comps : List Component} {d : Discovery}
    (h : AutoDiscoverConnections comps = .ok d) :
    d.components = comps ∧ d.needs = gatherNeeds comps ∧
      gatherProvides comps = .ok d.provides := by
  simp only [AutoDiscoverConnections] at h
  split at h
  · cases h
  · rename_i pm hp
    split at h
    · cases h
    · cases h
      exact ⟨rfl, rfl, hp⟩

theorem mem_sortedStrings {x : String} {l : List String} : x ∈ sortedStrings l ↔ x ∈ l :=
  (List.perm_insertionSort _ l).mem_iff

theorem sortedStrings_nodup {l : List String} (h : l.Nodup) : (sortedStrings l).Nodup :=
  (List.perm_insertionSort _ l).nodup_iff.mpr h

theorem charListLe_total : ∀ (as bs : List Char),
    charListLe as bs = true ∨ charListLe bs as = true
  | [], _ => Or.inl rfl
  | _ :: _, [] => Or.inr rfl
  | a :: as, b :: bs => by
    by_cases hab : a = b
    · subst hab
      simp only [charListLe, if_pos rfl]
      exact charListLe_total as bs
    · have hba : ¬(b = a) := fun h => hab h.symm
      simp only [charListLe, if_neg hab, if_neg hba]
      rcases lt_trichotomy a b with h | h | h
      · exact Or.inl (decide_eq_true h)
      · exact absurd h hab
      · exact Or.inr (decide_eq_true h)

theorem charListLe_trans : ∀ (as bs cs : List Char),
    charListLe as bs = true → charListLe bs cs = true → charListLe as cs = true
  | [], _, _, _, _ => rfl
  | _ :: _, [], _, h1, _ => by simp [charListLe] at h1
  | _ :: _, _ :: _, [], _, h2 => by simp [charListLe] at h2
  | a :: as, b :: bs, c :: cs, h1, h2 => by
    by_cases hab : a = b
    · subst hab
      by_cases hbc : a = c
      · subst hbc
        simp only [charListLe, if_pos rfl] at h1 h2 ⊢
        exact charListLe_trans as bs cs h1 h2
      · simp only [charListLe, if_pos rfl, if_neg hbc] at h1 h2 ⊢
        exact h2
    · by_cases hbc : b = c
      · subst hbc
        simp only [charListLe, if_neg hab] at h1 ⊢
        exact h1
      · have h1' : a < b := of_decide_eq_true (by simpa [charListLe, hab] using h1)
        have h2' : b < c := of_decide_eq_true (by simpa [charListLe, hbc] using h2)
        have hac : a < c := lt_trans h1' h2'
        simp [charListLe, ne_of_lt hac, hac]

theorem charListLe_antisymm : ∀ (as bs : List Char),
    charListLe as bs = true → charListLe bs as = true → as = bs
  | [], [], _, _ => rfl
  | [], _ :: _, _, h2 => by simp [charListLe] at h2
  | _ :: _, [], h1, _ => by simp [charListLe] at h1
  | a :: as, b :: bs, h1, h2 => by
    by_cases hab : a = b
    · subst hab
      simp only [charListLe, if_pos rfl] at h1 h2
      rw [charListLe_antisymm as bs h1 h2]
    · have hba : ¬(b = a) := fun h => hab h.symm
      simp only [charListLe, if_neg hab] at h1
      simp only [charListLe, if_neg hba] at h2
      exact absurd (of_decide_eq_true h2) (lt_asymm (of_decide_eq_true h1))

theorem strLeRel_total : IsTotal String (fun a b => strLe a b = true) :=
  ⟨fun a b => charListLe_total a.data b.data⟩

theorem strLeRel_trans : IsTrans String (fun a b => strLe a b = true) :=
  ⟨fun a b c => charListLe_trans a.data b.data c.data⟩

theorem strLeRel_antisymm : IsAntisymm String (fun a b => strLe a b = true) :=
  ⟨fun a b h1 h2 => String.ext (charListLe_antisymm a.data b.data h1 h2)⟩

theorem sortedStrings_sorted (l : List String) :
    List.Sorted (fun a b : String => strLe a b = true) (sortedStrings l) :=
  @List.sorted_insertionSort String (fun a b => strLe a b = true)
    (fun _ _ => inferInstance) strLeRel_total strLeRel_trans l

theorem unsatisfied_needs_mem {comps : List Component} {d : Discovery}
    (h : AutoDiscoverConnections comps = .ok d) (x : String) :
    x ∈ d.unsatisfied_needs ↔
      (∃ c ∈ comps, x ∈ c.needs) ∧ ¬∃ c ∈ comps, x ∈ c.provides := by
  obtain ⟨_, hn, hp⟩ := AutoDiscoverConnections_ok h
  unfold Discovery.unsatisfied_needs
  rw [mem_sortedStrings, List.mem_filter]
  constructor
  · rintro ⟨hmem, hfil⟩
    refine ⟨?_, ?_⟩
    · rw [hn] at hmem
      exact (gatherNeeds_keys_isSome comps x).mp ((alookup_isSome_iff _ _).mpr hmem)
    · intro hex
      have hsome := (provides_isSome_iff hp x).mpr hex
      have hnone : alookup d.provides x = none := Option.isNone_iff_eq_none.mp hfil
      rw [hnone] at hsome
      simp at hsome
  · rintro ⟨hneed, hnoprov⟩
    refine ⟨?_, ?_⟩
    · rw [hn]
      exact (alookup_isSome_iff _ _).mp ((gatherNeeds_keys_isSome comps x).mpr hneed)
    · have : ¬(alookup d.provides x).isSome := fun hs =>
        hnoprov ((provides_isSome_iff hp x).mp hs)
      simp [Option.not_isSome_iff_eq_none.mp this]

theorem satisfied_needs_mem {comps : List Component} {d : Discovery}
    (h : AutoDiscoverConnections comps = .ok d) (x : String) :
    x ∈ d.satisfied_needs ↔
      (∃ c ∈ comps, x ∈ c.needs) ∧ ∃ c ∈ comps, x ∈ c.provides := by
  obtain ⟨_, hn, hp⟩ := AutoDiscoverConnections_ok h
  unfold Discovery.satisfied_needs
  rw [mem_sortedStrings, List.mem_filter]
  constructor
  · rintro ⟨hmem, hfil⟩
    refine ⟨?_, (provides_isSome_iff hp x).mp hfil⟩
    rw [hn] at hmem
    exact (gatherNeeds_keys_isSome comps x).mp ((alookup_isSome_iff _ _).mpr hmem)
  · rintro ⟨hneed, hprov⟩
    refine ⟨?_, (provides_isSome_iff hp x).mpr hprov⟩
    rw [hn]
    exact (alookup_isSome_iff _ _).mp ((gatherNeeds_keys_isSome comps x).mpr hneed)

theorem needs_entry_value {comps : List Component} {d : Discovery}
    (h : AutoDiscoverConnections comps = .ok d) {e : String × List Component}
    (he : e ∈ d.needs) : e.2 = needersOf comps e.1 ∧ needersOf comps e.1 ≠ [] := by
  obtain ⟨_, hn, _⟩ := AutoDiscoverConnections_ok h
  rw [hn] at he
  have hl : alookup (gatherNeeds comps) e.1 = some e.2 := by
    apply alookup_of_mem_of_keys_nodup (gatherNeeds_keys_nodup comps)
    obtain ⟨a, b⟩ := e
    exact he
  rw [gatherNeeds_alookup] at hl
  by_cases hnil : needersOf comps e.1 = []
  · rw [if_pos hnil] at hl; cases hl
  · rw [if_neg hnil] at hl
    exact ⟨(Option.some.inj hl).symm, hnil⟩

theorem connEntry_port {d : Discovery} {e : String × List Component}
    {t : DiscoveredConnection} (h : t ∈ connEntry d e) : t.port_name = e.1 := by
  unfold connEntry at h
  cases hpe : alookup d.provides e.1 with
  | none => rw [hpe] at h; cases h
  | some pr =>
    rw [hpe] at h
    obtain ⟨consumer, _, heq⟩ := List.mem_map.mp h
    rw [← heq]

theorem connections_mem {comps : List Component} {d : Discovery}
    (h : AutoDiscoverConnections comps = .ok d) (t : DiscoveredConnection) :
    t ∈ d.connections ↔
      t.consumer ∈ comps ∧ t.port_name ∈ t.consumer.needs ∧
        t.provider ∈ comps ∧ t.port_name ∈ t.provider.provides := by
  obtain ⟨_, hn, hp⟩ := AutoDiscoverConnections_ok h
  unfold Discovery.connections
  rw [List.mem_flatMap]
  constructor
  · rintro ⟨e, he, hmem⟩
    have hport := connEntry_port hmem
    unfold connEntry at hmem
    cases hpe : alookup d.provides e.1 with
    | none => rw [hpe] at hmem; cases hmem
    | some pr =>
      rw [hpe] at hmem
      obtain ⟨consumer, hcons, heq⟩ := List.mem_map.mp hmem
      obtain ⟨hval, _⟩ := needs_entry_value h he
      rw [hval] at hcons
      obtain ⟨hc1, hn1⟩ := mem_needersOf.mp hcons
      obtain ⟨hc2, hp2⟩ := (provides_alookup_iff hp e.1 pr).mp hpe
      rw [← heq]
      exact ⟨hc1, hn1, hc2, hp2⟩
  · rintro ⟨hc1, hn1, hc2, hp2⟩
    have hl : alookup (gatherNeeds comps) t.port_name =
        some (needersOf comps t.port_name) := by
      rw [gatherNeeds_alookup, if_neg]
      intro hnil
      exact (needersOf_eq_nil_iff.mp hnil) ⟨t.consumer, hc1, hn1⟩
    refine ⟨(t.port_name, needersOf comps t.port_name), ?_, ?_⟩
    · rw [hn]
      exact mem_of_alookup_eq_some hl
    · unfold connEntry
      have hpr : alookup d.provides t.port_name = some t.provider :=
        (provides_alookup_iff hp _ _).mpr ⟨hc2, hp2⟩
      rw [hpr]
      refine List.mem_map.mpr ⟨t.consumer, mem_needersOf.mpr ⟨hc1, hn1⟩, ?_⟩
      obtain ⟨a, b, c⟩ := t
      rfl

theorem connections_nodup {comps : List Component} {d : Discovery}
    (h : AutoDiscoverConnections comps = .ok d)
    (hcid : (comps.map Component.cid).Nodup)
    (hneeds : ∀ c ∈ comps, c.needs.Nodup) : d.connections.Nodup := by
  obtain ⟨_, hn, _⟩ := AutoDiscoverConnections_ok h
  have hcomps : comps.Nodup := List.Nodup.of_map _ hcid
  unfold Discovery.connections
  rw [List.nodup_flatMap]
  constructor
  · intro e he
    obtain ⟨hval, _⟩ := needs_entry_value h he
    unfold connEntry
    cases hpe : alookup d.provides e.1 with
    | none => exact List.nodup_nil
    | some pr =>
      apply List.Nodup.map
      · intro c1 c2 hcc
        simpa using hcc
      · rw [hval]
        exact needersOf_nodup hcomps hneeds
  · have hkeys : (d.needs.map Prod.fst).Nodup := by
      rw [hn]; exact gatherNeeds_keys_nodup comps
    have hpair : List.Pairwise (fun e1 e2 : String × List Component => e1.1 ≠ e2.1) d.needs :=
      List.pairwise_map.mp hkeys
    refine List.Pairwise.imp ?_ hpair
    intro e1 e2 hne t ht1 ht2
    exact hne ((connEntry_port ht1).symm.trans (connEntry_port ht2))

theorem gatherNeeds_entry_value {comps : List Component} {e : String × List Component}
    (he : e ∈ gatherNeeds comps) :
    e.2 = needersOf comps e.1 ∧ needersOf comps e.1 ≠ [] := by
  have hl : alookup (gatherNeeds comps) e.1 = some e.2 := by
    apply alookup_of_mem_of_keys_nodup (gatherNeeds_keys_nodup comps)
    obtain ⟨a, b⟩ := e
    exact he
  rw [gatherNeeds_alookup] at hl
  by_cases hnil : needersOf comps e.1 = []
  · rw [if_pos hnil] at hl; cases hl
  · rw [if_neg hnil] at hl
    exact ⟨(Option.some.inj hl).symm, hnil⟩

/-! Lemmas about the self-reference check. -/

theorem selfCheck_result (needs : List (String × List Component))
    (provides : List (String × Component)) :
    selfCheck needs provides = .ok () ∨
      ∃ p, selfCheck needs provides = .error (.SelfReferencingMadness p) := by
  induction needs with
  | nil => exact Or.inl rfl
  | cons e rest ih =>
    obtain ⟨port, needers⟩ := e
    cases hpe : alookup provides port with
    | none =>
      simp only [selfCheck, hpe]
      exact ih
    | some provider =>
      by_cases hin : provider ∈ needers
      · exact Or.inr ⟨port, by simp [selfCheck, hpe, hin]⟩
      · simp only [selfCheck, hpe, hin, if_neg, not_false_iff]
        exact ih

theorem selfCheck_ok_iff (needs : List (String × List Component))
    (provides : List (String × Component)) :
    selfCheck needs provides = .ok () ↔
      ∀ e ∈ needs, ∀ c, alookup provides e.1 = some c → c ∉ e.2 := by
  induction needs with
  | nil => simp [selfCheck]
  | cons e rest ih =>
    obtain ⟨port, needers⟩ := e
    rw [List.forall_mem_cons]
    cases hpe : alookup provides port with
    | none =>
      simp only [selfCheck, hpe]
      rw [ih]
      constructor
      · intro hrest
        refine ⟨?_, hrest⟩
        intro c hc
        simp at hc
      · intro hall
        exact hall.2
    | some provider =>
      by_cases hin : provider ∈ needers
      · simp only [selfCheck, hpe, hin, if_pos]
        constructor
        · intro hcontra
          cases hcontra
        · intro hall
          exact absurd hin (hall.1 provider rfl)
      · simp only [selfCheck, hpe, hin, if_neg, not_false_iff]
        rw [ih]
        constructor
        · intro hrest
          refine ⟨?_, hrest⟩
          intro c hc
          have hpc : provider = c := Option.some.inj hc
          rw [← hpc]
          exact hin
        · intro hall
          exact hall.2

/-! Lemmas about the wiring executor. -/

theorem map_entry_alookup {α β γ : Type} [DecidableEq β]
    (key : α → β) (val : α → γ) (l : List α) (hk : (l.map key).Nodup)
    {t : α} (ht : t ∈ l) :
    alookup (l.map (fun u => (key u, val u))) (key t) = some (val t) := by
  induction l with
  | nil => cases ht
  | cons u rest ih =>
    rw [List.map_cons, List.nodup_cons] at hk
    rcases List.mem_cons.mp ht with hh | hr
    · subst hh
      simp [alookup]
    · have hne : ¬(key u = key t) := fun he =>
        hk.1 (he ▸ List.mem_map.mpr ⟨t, hr, rfl⟩)
      simp only [List.map_cons, alookup, hne, if_neg]
      exact ih hk.2 hr

theorem wire_up_ok (conns : List DiscoveredConnection) (st : WireState)
    (hkeys : (conns.map (fun t => (t.consumer.cid, t.port_name))).Nodup)
    (hfresh : ∀ t ∈ conns, alookup st.providers (t.consumer.cid, t.port_name) = none) :
    wire_up_discovered_connections conns st =
      (⟨st.providers ++
        conns.map (fun t => ((t.consumer.cid, t.port_name), t.provider.cid))⟩, none) := by
  induction conns generalizing st with
  | nil => simp [wire_up_discovered_connections]
  | cons t rest ih =>
    have hf : alookup st.providers (t.consumer.cid, t.port_name) = none :=
      hfresh t (List.mem_cons_self _ _)
    have hnotsome : ¬(alookup st.providers (t.consumer.cid, t.port_name)).isSome := by
      rw [hf]; simp
    rw [List.map_cons, List.nodup_cons] at hkeys
    have hsp : set_provider t.consumer t.port_name t.provider st =
        .ok ⟨st.providers ++ [((t.consumer.cid, t.port_name), t.provider.cid)]⟩ := by
      unfold set_provider
      rw [if_neg hnotsome]
    show (match set_provider t.consumer t.port_name t.provider st with
      | .error e => (st, some e)
      | .ok st2 => wire_up_discovered_connections rest st2) = _
    rw [hsp]
    show wire_up_discovered_connections rest
      ⟨st.providers ++ [((t.consumer.cid, t.port_name), t.provider.cid)]⟩ = _
    rw [ih _ hkeys.2 ?_]
    · simp
    · intro u hu
      show alookup (st.providers ++ [((t.consumer.cid, t.port_name), t.provider.cid)])
        (u.consumer.cid, u.port_name) = none
      rw [alookup_append_single_ne _ _ ?_]
      · exact hfresh u (List.mem_cons_of_mem _ hu)
      · intro he
        exact hkeys.1 (he ▸ List.mem_map.mpr ⟨u, hu, rfl⟩)

theorem needersOf_eq_filter {comps : List Component} {p : String}
    (hneeds : ∀ c ∈ comps, c.needs.Nodup) :
    needersOf comps p = comps.filter (fun c => decide (p ∈ c.needs)) := by
  induction comps with
  | nil => rfl
  | cons c cs ih =>
    have hrest := ih (fun a ha => hneeds a (List.mem_cons_of_mem _ ha))
    show List.replicate (c.needs.count p) c ++ needersOf cs p = _
    rw [List.filter_cons]
    by_cases hmem : p ∈ c.needs
    · have h1 : c.needs.count p = 1 :=
        List.count_eq_one_of_mem (hneeds c (List.mem_cons_self _ _)) hmem
      rw [h1, hrest]
      simp [hmem]
    · have h0 : c.needs.count p = 0 := List.count_eq_zero.mpr hmem
      rw [h0, hrest]
      simp [hmem]

theorem connections_keys_nodup {comps : List Component} {d : Discovery}
    (h : AutoDiscoverConnections comps = .ok d)
    (hcid : (comps.map Component.cid).Nodup)
    (hneeds : ∀ c ∈ comps, c.needs.Nodup) :
    (d.connections.map (fun t => (t.consumer.cid, t.port_name))).Nodup := by
  obtain ⟨_, hn, _⟩ := AutoDiscoverConnections_ok h
  unfold Discovery.connections
  rw [List.map_flatMap, List.nodup_flatMap]
  constructor
  · intro e he
    obtain ⟨hval, _⟩ := needs_entry_value h he
    unfold connEntry
    cases hpe : alookup d.provides e.1 with
    | none => simp
    | some pr =>
      rw [List.map_map]
      have hmapeq : ((fun t : DiscoveredConnection => (t.consumer.cid, t.port_name)) ∘
          (fun consumer => (⟨e.1, consumer, pr⟩ : DiscoveredConnection))) =
          (fun n : Nat => (n, e.1)) ∘ Component.cid := rfl
      rw [hmapeq, ← List.map_map]
      apply List.Nodup.map
      · intro a b hab
        simpa using hab
      · rw [hval, needersOf_eq_filter hneeds]
        exact List.Nodup.sublist ((List.filter_sublist _).map Component.cid) hcid
  · have hkeys : (d.needs.map Prod.fst).Nodup := by
      rw [hn]; exact gatherNeeds_keys_nodup comps
    have hpair : List.Pairwise (fun e1 e2 : String × List Component => e1.1 ≠ e2.1) d.needs :=
      List.pairwise_map.mp hkeys
    refine List.Pairwise.imp ?_ hpair
    intro e1 e2 hne x hx1 hx2
    obtain ⟨t1, ht1, hxt1⟩ := List.mem_map.mp hx1
    obtain ⟨t2, ht2, hxt2⟩ := List.mem_map.mp hx2
    have hp1 : x.2 = e1.1 := by rw [← hxt1]; exact connEntry_port ht1
    have hp2 : x.2 = e2.1 := by rw [← hxt2]; exact connEntry_port ht2
    exact hne (hp1.symm.trans hp2)

/-! Lemmas about the port registry. -/

theorem add_port_invalid_format {a : PortArray} {p : String}
    (h : VALID_PORT_NAME_FORMAT_match p = false) :
    a.add_port p = .error (.InvalidPortName p) := by
  unfold PortArray.add_port assert_valid_port_name
  rw [h]
  rfl

theorem add_port_reserved {a : PortArray} {p : String}
    (hv : VALID_PORT_NAME_FORMAT_match p = true) (h : p ∈ RESERVED_PORT_NAMES) :
    a.add_port p = .error (.InvalidPortName p) := by
  unfold PortArray.add_port assert_valid_port_name
  rw [hv]
  simp [h]

theorem add_port_ok_of {a : PortArray} {p : String}
    (hv : VALID_PORT_NAME_FORMAT_match p = true) (hres : p ∉ RESERVED_PORT_NAMES)
    (hmem : p ∉ a.ports) :
    a.add_port p = .ok ⟨a.ports ++ [p], aset a.attrs p (.placeholder p)⟩ := by
  unfold PortArray.add_port assert_valid_port_name
  rw [hv]
  simp [hres, hmem]

theorem add_port_ok_conditions {a : PortArray} {p : String} {b : PortArray}
    (h : a.add_port p = .ok b) :
    VALID_PORT_NAME_FORMAT_match p = true ∧ p ∉ RESERVED_PORT_NAMES ∧ p ∉ a.ports ∧
      b = ⟨a.ports ++ [p], aset a.attrs p (.placeholder p)⟩ := by
  cases hv : VALID_PORT_NAME_FORMAT_match p with
  | false => rw [add_port_invalid_format hv] at h; cases h
  | true =>
    by_cases hres : p ∈ RESERVED_PORT_NAMES
    · rw [add_port_reserved hv hres] at h; cases h
    · by_cases hmem : p ∈ a.ports
      · unfold PortArray.add_port assert_valid_port_name at h
        rw [hv] at h
        simp [hres, hmem] at h
      · rw [add_port_ok_of hv hres hmem] at h
        exact ⟨rfl, hres, hmem, (Except.ok.inj h).symm⟩

theorem addPorts_ok {l : List String} {a a2 : PortArray}
    (h : addPorts l a = .ok a2) :
    a2.ports = a.ports ++ l ∧ l.Nodup ∧ (∀ p ∈ l, p ∉ a.ports) ∧
      (∀ p ∈ l, alookup a2.attrs p = some (.placeholder p)) ∧
      (∀ p, p ∉ l → alookup a2.attrs p = alookup a.attrs p) ∧
      (∀ p ∈ l, VALID_PORT_NAME_FORMAT_match p = true ∧ p ∉ RESERVED_PORT_NAMES) := by
  induction l generalizing a with
  | nil =>
    simp only [addPorts, Except.ok.injEq] at h
    subst h
    simp
  | cons p ps ih =>
    simp only [addPorts] at h
    cases hap : a.add_port p with
    | error e => rw [hap] at h; cases h
    | ok a1 =>
      rw [hap] at h
      obtain ⟨hv, hres, hmem, hb⟩ := add_port_ok_conditions hap
      subst hb
      obtain ⟨ih1, ih2, ih3, ih4, ih5, ih6⟩ := ih h
      have hpps : p ∉ ps := by
        intro hp
        have := ih3 p hp
        simp at this
      refine ⟨?_, ?_, ?_, ?_, ?_, ?_⟩
      · rw [ih1]
        simp
      · exact List.nodup_cons.mpr ⟨hpps, ih2⟩
      · intro q hq
        rcases List.mem_cons.mp hq with hh | ht
        · exact hh ▸ hmem
        · intro hqa
          exact (ih3 q ht) (by simp [hqa])
      · intro q hq
        rcases List.mem_cons.mp hq with hh | ht
        · subst hh
          rw [ih5 q hpps, aset_alookup, if_pos rfl]
        · exact ih4 q ht
      · intro q hq
        rw [List.mem_cons] at hq
        push_neg at hq
        rw [ih5 q hq.2, aset_alookup, if_neg hq.1]
      · intro q hq
        rcases List.mem_cons.mp hq with hh | ht
        · exact hh ▸ ⟨hv, hres⟩
        · exact ih6 q ht

theorem addPorts_exists {l : List String} {a : PortArray}
    (hn : l.Nodup) (hfresh : ∀ p ∈ l, p ∉ a.ports)
    (hvalid : ∀ p ∈ l, VALID_PORT_NAME_FORMAT_match p = true ∧ p ∉ RESERVED_PORT_NAMES) :
    ∃ b, addPorts l a = .ok b := by
  induction l generalizing a with
  | nil => exact ⟨a, rfl⟩
  | cons p ps ih =>
    rw [List.nodup_cons] at hn
    have hv := hvalid p (List.mem_cons_self _ _)
    have hap := add_port_ok_of hv.1 hv.2 (hfresh p (List.mem_cons_self _ _))
    have hstep : ∀ q ∈ ps,
        q ∉ (⟨a.ports ++ [p], aset a.attrs p (.placeholder p)⟩ : PortArray).ports := by
      intro q hq hqmem
      simp only at hqmem
      rcases List.mem_append.mp hqmem with hqa | hqp
      · exact hfresh q (List.mem_cons_of_mem _ hq) hqa
      · simp only [List.mem_singleton] at hqp
        exact hn.1 (hqp ▸ hq)
    obtain ⟨b, hb⟩ := ih hn.2 hstep (fun q hq => hvalid q (List.mem_cons_of_mem _ hq))
    refine ⟨b, ?_⟩
    simp only [addPorts, hap]
    exact hb

/-! Lemmas about the shadow port array. -/

theorem shadow_inner_fold_none {ignored : List String} {p : String} (hp : p ∈ ignored)
    (ports : List String) (i : Nat) (m : List (String × List Nat))
    (hm : alookup m p = none) :
    alookup (ports.foldl
      (fun m2 port => if port ∈ ignored then m2 else multiInsert m2 port i) m) p = none := by
  induction ports generalizing m with
  | nil => exact hm
  | cons q qs ih =>
    rw [List.foldl_cons]
    by_cases hq : q ∈ ignored
    · rw [if_pos hq]
      exact ih m hm
    · rw [if_neg hq]
      apply ih
      rw [multiInsert_alookup, hm]
      have hpq : ¬(p = q) := fun he => hq (he ▸ hp)
      simp [hpq, optApp]

theorem gatherShadowPorts_ignored (arrays : List PortArray) (ignored : List String)
    {p : String} (hp : p ∈ ignored) :
    alookup (gatherShadowPorts arrays ignored) p = none := by
  unfold gatherShadowPorts
  have main : ∀ (l : List (Nat × PortArray)) (m : List (String × List Nat)),
      alookup m p = none →
      alookup (l.foldl (fun m2 ia => ia.2.get_ports.foldl
        (fun m3 port => if port ∈ ignored then m3 else multiInsert m3 port ia.1) m2) m) p =
        none := by
    intro l
    induction l with
    | nil => intro m hm; exact hm
    | cons ia rest ih =>
      intro m hm
      rw [List.foldl_cons]
      exact ih _ (shadow_inner_fold_none hp _ _ _ hm)
  exact main arrays.enum [] rfl

theorem shadow_connect_ignored {arrays : List PortArray} {ignore_ports : List String}
    {p : String} (hp : p ∈ ignore_ports) (f : Nat) :
    (ShadowPortArray.make arrays ignore_ports).connect_port p f = .error (.UnknownPort p) := by
  unfold ShadowPortArray.connect_port ShadowPortArray.make
  rw [gatherShadowPorts_ignored arrays ignore_ports hp]

theorem shadow_disconnect_ignored {arrays : List PortArray} {ignore_ports : List String}
    {p : String} (hp : p ∈ ignore_ports) :
    (ShadowPortArray.make arrays ignore_ports).disconnect_port p = .error (.UnknownPort p) := by
  unfold ShadowPortArray.disconnect_port ShadowPortArray.make
  rw [gatherShadowPorts_ignored arrays ignore_ports hp]

/-! Lemmas about the domain metaclass pipeline. -/

theorem registerDomainProviders_extends (d : Discovery) (ports : List String)
    (pa : List (String × Component)) (fa : List (String × List (String × String)))
    {provs : List (String × Component)} {flags : List (String × List (String × String))}
    (h : registerDomainProviders d ports pa fa = .ok (provs, flags)) :
    ∃ ext1 ext2, provs = pa ++ ext1 ∧ flags = fa ++ ext2 := by
  induction ports generalizing pa fa with
  | nil =>
    simp only [registerDomainProviders, Except.ok.injEq, Prod.mk.injEq] at h
    exact ⟨[], [], by simp [h.1], by simp [h.2]⟩
  | cons q qs ih =>
    simp only [registerDomainProviders] at h
    split at h
    · cases h
    · split at h
      · cases h
      · rename_i s1 provider hgp s2 inherited hgf
        split at h
        · cases h
        · obtain ⟨e1, e2, he1, he2⟩ := ih _ _ h
          exact ⟨(q, provider) :: e1, (q, dictPop inherited "with_name") :: e2,
            by simp [he1], by simp [he2]⟩

theorem registerDomainProviders_flags (d : Discovery) {ports : List String}
    {pa : List (String × Component)} {fa : List (String × List (String × String))}
    {provs : List (String × Component)} {flags : List (String × List (String × String))}
    (h : registerDomainProviders d ports pa fa = .ok (provs, flags)) {p : String}
    (hp : p ∈ ports) (hpa : alookup pa p = none) (hfa : alookup fa p = none) :
    ∃ provider inherited, d.get_provider p = .ok provider ∧
      provider.get_provider_flags p = .ok inherited ∧
      alookup flags p = some (dictPop inherited "with_name") := by
  induction ports generalizing pa fa with
  | nil => cases hp
  | cons q qs ih =>
    simp only [registerDomainProviders] at h
    split at h
    · cases h
    · split at h
      · cases h
      · rename_i s1 provider hgp s2 inherited hgf
        split at h
        · cases h
        · by_cases hpq : p = q
          · subst hpq
            obtain ⟨e1, e2, _, hfl⟩ := registerDomainProviders_extends d qs _ _ h
            refine ⟨provider, inherited, hgp, hgf, ?_⟩
            rw [hfl]
            apply alookup_append_some
            rw [alookup_append_none _ hfa]
            simp [alookup]
          · have hqs : p ∈ qs := by
              rcases List.mem_cons.mp hp with hh | ht
              · exact absurd hh hpq
              · exact ht
            have hne : ¬(q = p) := fun hh => hpq hh.symm
            exact ih h hqs (by rw [alookup_append_single_ne _ _ hne]; exact hpa)
              (by rw [alookup_append_single_ne _ _ hne]; exact hfa)

theorem DomainMetaclass_new_ok {services : List Component} {provides : List String}
    {dc : DomainClass} (h : DomainMetaclass_new services provides = .ok dc) :
    ∃ discovered, AutoDiscoverConnections services = .ok discovered ∧
      dc.children = services ∧
      addPorts discovered.unsatisfied_needs PortArray.empty = .ok dc.deps ∧
      registerDomainProviders discovered provides [] [] =
        .ok (dc.meta_providers, dc.meta_flags) := by
  unfold DomainMetaclass_new at h
  split at h
  · cases h
  · rename_i discovered hdisc
    split at h
    · cases h
    · split at h
      · cases h
      · rename_i deps hdeps
        split at h
        · cases h
        all_goals
          cases h
          exact ⟨discovered, hdisc, rfl, hdeps, by assumption⟩

/-! Lemmas relating the code's Python-semantics name regex to the spec's
anchored reading: the only difference is a single trailing newline tolerated
by Python's end-of-line anchor. -/

theorem matchTail_iff (cs : List Char) :
    matchTailWithDollar cs = true ↔
      (cs.all isPortWordChar = true ∨
        ∃ cs2, cs = cs2 ++ ['\n'] ∧ cs2.all isPortWordChar = true) := by
  induction cs with
  | nil =>
    constructor
    · intro _
      exact Or.inl rfl
    · intro _
      rfl
  | cons c rest ih =>
    cases rest with
    | nil =>
      by_cases hc : c = '\n'
      · subst hc
        constructor
        · intro _
          exact Or.inr ⟨[], rfl, rfl⟩
        · intro _
          rfl
      · have hdef : matchTailWithDollar [c] = isPortWordChar c := by
          simp [matchTailWithDollar, hc]
        rw [hdef]
        constructor
        · intro h
          left
          simp [h]
        · rintro (h | ⟨cs2, hcs2, hall⟩)
          · simpa using h
          · cases cs2 with
            | nil =>
              simp only [List.nil_append, List.cons.injEq] at hcs2
              exact absurd hcs2.1 hc
            | cons a t =>
              simp only [List.cons_append, List.cons.injEq] at hcs2
              have := hcs2.2
              cases t <;> simp at this
    | cons c2 rest2 =>
      have hdef : matchTailWithDollar (c :: c2 :: rest2) =
          (isPortWordChar c && matchTailWithDollar (c2 :: rest2)) := by
        simp [matchTailWithDollar]
      rw [hdef, Bool.and_eq_true, ih]
      constructor
      · rintro ⟨hw, h | ⟨cs2, hcs2, hall⟩⟩
        · left
          simp [hw, h]
        · right
          refine ⟨c :: cs2, by rw [hcs2]; rfl, by simp [hw, hall]⟩
      · rintro (h | ⟨cs2, hcs2, hall⟩)
        · rw [List.all_cons, Bool.and_eq_true] at h
          exact ⟨h.1, Or.inl h.2⟩
        · cases cs2 with
          | nil =>
            simp only [List.nil_append, List.cons.injEq] at hcs2
            have := hcs2.2
            cases rest2 <;> simp at this
          | cons a t =>
            simp only [List.cons_append, List.cons.injEq] at hcs2
            obtain ⟨h1, h2⟩ := hcs2
            subst h1
            rw [List.all_cons, Bool.and_eq_true] at hall
            exact ⟨hall.1, Or.inr ⟨t, h2, hall.2⟩⟩

theorem VALID_iff_spec_or_newline (s : String) :
    VALID_PORT_NAME_FORMAT_match s = true ↔
      (specPortNameMatches s = true ∨
        ∃ cs, s.data = cs ++ ['\n'] ∧ specCharsMatch cs = true) := by
  unfold VALID_PORT_NAME_FORMAT_match specPortNameMatches
  cases hsd : s.data with
  | nil =>
    constructor
    · intro h
      cases h
    · rintro (h | ⟨cs, hcs, _⟩)
      · simp [specCharsMatch] at h
      · cases cs <;> simp at hcs
  | cons c rest =>
    rw [Bool.and_eq_true, matchTail_iff]
    constructor
    · rintro ⟨hlow, h | ⟨cs2, hcs2, hall⟩⟩
      · left
        simp [specCharsMatch, hlow, h]
      · right
        refine ⟨c :: cs2, by rw [hcs2]; rfl, by simp [specCharsMatch, hlow, hall]⟩
    · rintro (h | ⟨cs, hcs, hmatch⟩)
      · unfold specCharsMatch at h
        rw [Bool.and_eq_true] at h
        exact ⟨h.1, Or.inl h.2⟩
      · cases cs with
        | nil =>
          simp [specCharsMatch] at hmatch
        | cons a t =>
          simp only [List.cons_append, List.cons.injEq] at hcs
          obtain ⟨h1, h2⟩ := hcs
          subst h1
          unfold specCharsMatch at hmatch
          rw [Bool.and_eq_true] at hmatch
          exact ⟨hmatch.1, Or.inr ⟨t, h2, hmatch.2⟩⟩

/-! Soundness of the AST-based dependency analyzer: every collected name has a
real identifier occurrence in the tree. -/

theorem getLastD_mem : ∀ (l : List String), l ≠ [] → (l.getLast?).getD "" ∈ l
  | [], h => absurd rfl h
  | [a], _ => by simp
  | a :: b :: t, _ => by
    rw [List.getLast?_cons_cons]
    exact List.mem_cons_of_mem _ (getLastD_mem (b :: t) (by simp))

theorem extract_chain_facts : ∀ (e : PyExpr) (l : List String),
    extract_call_attribute_chain e = some l →
      l ≠ [] ∧ ∀ x ∈ l, mentionsId e x = true
  | .name _, _, h => by simp [extract_call_attribute_chain] at h
  | .strLit _, _, h => by simp [extract_call_attribute_chain] at h
  | .call _ _ _, _, h => by simp [extract_call_attribute_chain] at h
  | .other _, _, h => by simp [extract_call_attribute_chain] at h
  | .attribute (.name id) attr, l, h => by
    simp only [extract_call_attribute_chain, Option.some.injEq] at h
    subst h
    refine ⟨by simp, ?_⟩
    intro x hx
    rcases List.mem_cons.mp hx with h1 | hx2
    · subst h1
      simp [mentionsId]
    · simp only [List.mem_singleton] at hx2
      subst hx2
      simp [mentionsId]
  | .attribute (.strLit s) attr, l, h => by
    simp [extract_call_attribute_chain] at h
  | .attribute (.call f a k) attr, l, h => by
    simp [extract_call_attribute_chain] at h
  | .attribute (.other cs) attr, l, h => by
    simp [extract_call_attribute_chain] at h
  | .attribute (.attribute v a2) attr, l, h => by
    have hdef : extract_call_attribute_chain (.attribute (.attribute v a2) attr) =
        (match extract_call_attribute_chain (.attribute v a2) with
         | some l2 => some (l2 ++ [attr])
         | none => none) := by
      simp [extract_call_attribute_chain]
    rw [hdef] at h
    cases hrec : extract_call_attribute_chain (.attribute v a2) with
    | none =>
      rw [hrec] at h
      cases h
    | some l2 =>
      rw [hrec] at h
      have hl : l = l2 ++ [attr] := (Option.some.inj h).symm
      subst hl
      obtain ⟨hne, hall⟩ := extract_chain_facts (.attribute v a2) l2 hrec
      refine ⟨by simp, ?_⟩
      intro x hx
      rcases List.mem_append.mp hx with hx2 | hx1
      · have hm := hall x hx2
        simp only [mentionsId, Bool.or_eq_true, decide_eq_true_eq] at hm ⊢
        tauto
      · simp only [List.mem_singleton] at hx1
        subst hx1
        simp [mentionsId]

mutual

theorem pyVisit_sound : ∀ (e : PyExpr) (n : String), n ∈ pyVisit e → mentionsId e n = true
  | .name _, n, h => by simp [pyVisit] at h
  | .strLit _, n, h => by simp [pyVisit] at h
  | .attribute v a, n, h => by
    have hm := pyVisit_sound v n (by simpa [pyVisit] using h)
    simp [mentionsId, hm]
  | .other cs, n, h => by
    have hm := pyVisitList_sound cs n (by simpa [pyVisit] using h)
    simp [mentionsId, hm]
  | .call (.attribute v a) args kwargs, n, h => by
    have hdef : pyVisit (.call (.attribute v a) args kwargs) =
        (match extract_call_attribute_chain (.attribute v a) with
         | some chain =>
           if String.intercalate "." chain.dropLast = "self.deps" then
             [(chain.getLast?).getD ""]
           else []
         | none => pyVisit v)
        ++ pyVisitList args ++ pyVisitList kwargs := by
      simp [pyVisit]
    rw [hdef] at h
    rcases List.mem_append.mp h with h1 | hk
    · rcases List.mem_append.mp h1 with hc | ha
      · cases hrec : extract_call_attribute_chain (.attribute v a) with
        | none =>
          rw [hrec] at hc
          have hm := pyVisit_sound v n hc
          simp only [mentionsId, Bool.or_eq_true, decide_eq_true_eq]
          tauto
        | some chain =>
          rw [hrec] at hc
          have hc2 : n ∈ (if String.intercalate "." chain.dropLast = "self.deps" then
              [(chain.getLast?).getD ""] else []) := hc
          by_cases hcond : String.intercalate "." chain.dropLast = "self.deps"
          · rw [if_pos hcond] at hc2
            simp only [List.mem_singleton] at hc2
            subst hc2
            obtain ⟨hne, hall⟩ := extract_chain_facts _ _ hrec
            have hm := hall _ (getLastD_mem chain hne)
            simp only [mentionsId, Bool.or_eq_true, decide_eq_true_eq] at hm ⊢
            tauto
          · rw [if_neg hcond] at hc2
            cases hc2
      · have hm := pyVisitList_sound args n ha
        simp [mentionsId, hm]
    · have hm := pyVisitList_sound kwargs n hk
      simp [mentionsId, hm]
  | .call (.name id) args kwargs, n, h => by
    rcases List.mem_append.mp (by simpa [pyVisit] using h) with ha | hk
    · have hm := pyVisitList_sound args n ha
      simp [mentionsId, hm]
    · have hm := pyVisitList_sound kwargs n hk
      simp [mentionsId, hm]
  | .call (.strLit s) args kwargs, n, h => by
    rcases List.mem_append.mp (by simpa [pyVisit] using h) with ha | hk
    · have hm := pyVisitList_sound args n ha
      simp [mentionsId, hm]
    · have hm := pyVisitList_sound kwargs n hk
      simp [mentionsId, hm]
  | .call (.call f2 a2 k2) args kwargs, n, h => by
    rcases List.mem_append.mp (by simpa [pyVisit] using h) with ha | hk
    · have hm := pyVisitList_sound args n ha
      simp [mentionsId, hm]
    · have hm := pyVisitList_sound kwargs n hk
      simp [mentionsId, hm]
  | .call (.other cs2) args kwargs, n, h => by
    rcases List.mem_append.mp (by simpa [pyVisit] using h) with ha | hk
    · have hm := pyVisitList_sound args n ha
      simp [mentionsId, hm]
    · have hm := pyVisitList_sound kwargs n hk
      simp [mentionsId, hm]

theorem pyVisitList_sound : ∀ (cs : PyExprList) (n : String),
    n ∈ pyVisitList cs → mentionsIdList cs n = true
  | .nil, n, h => by simp [pyVisitList] at h
  | .cons e rest, n, h => by
    rcases List.mem_append.mp (by simpa [pyVisitList] using h) with h1 | h2
    · have hm := pyVisit_sound e n h1
      simp [mentionsIdList, hm]
    · have hm := pyVisitList_sound rest n h2
      simp [mentionsIdList, hm]

end

/-! Remaining helper lemmas for the claim theorems. -/

theorem unsatisfied_needs_nodup {comps : List Component} {d : Discovery}
    (h : AutoDiscoverConnections comps = .ok d) : d.unsatisfied_needs.Nodup := by
  obtain ⟨_, hn, _⟩ := AutoDiscoverConnections_ok h
  apply sortedStrings_nodup
  apply List.Nodup.filter
  rw [hn]
  exact gatherNeeds_keys_nodup comps

theorem satisfied_needs_nodup {comps : List Component} {d : Discovery}
    (h : AutoDiscoverConnections comps = .ok d) : d.satisfied_needs.Nodup := by
  obtain ⟨_, hn, _⟩ := AutoDiscoverConnections_ok h
  apply sortedStrings_nodup
  apply List.Nodup.filter
  rw [hn]
  exact gatherNeeds_keys_nodup comps

theorem exists_mem_perm {comps comps' : List Component} (hperm : comps.Perm comps')
    (P : Component → Prop) : (∃ c ∈ comps, P c) ↔ ∃ c ∈ comps', P c := by
  constructor
  · rintro ⟨c, hc, hp⟩
    exact ⟨c, hperm.mem_iff.mp hc, hp⟩
  · rintro ⟨c, hc, hp⟩
    exact ⟨c, hperm.mem_iff.mpr hc, hp⟩

theorem unsatisfied_perm_eq {comps comps' : List Component} {d d' : Discovery}
    (h : AutoDiscoverConnections comps = .ok d)
    (h' : AutoDiscoverConnections comps' = .ok d')
    (hperm : comps.Perm comps') :
    d'.unsatisfied_needs = d.unsatisfied_needs := by
  have hs1 : List.Sorted (fun a b : String => strLe a b = true) d'.unsatisfied_needs :=
    sortedStrings_sorted _
  have hs2 : List.Sorted (fun a b : String => strLe a b = true) d.unsatisfied_needs :=
    sortedStrings_sorted _
  have hp2 : d'.unsatisfied_needs.Perm d.unsatisfied_needs := by
    rw [List.perm_ext_iff_of_nodup (unsatisfied_needs_nodup h') (unsatisfied_needs_nodup h)]
    intro x
    rw [unsatisfied_needs_mem h' x, unsatisfied_needs_mem h x]
    rw [exists_mem_perm hperm (fun c => x ∈ c.needs),
      exists_mem_perm hperm (fun c => x ∈ c.provides)]
  exact @List.eq_of_perm_of_sorted String (fun a b => strLe a b = true)
    strLeRel_antisymm _ _ hp2 hs1 hs2

theorem satisfied_perm_eq {comps comps' : List Component} {d d' : Discovery}
    (h : AutoDiscoverConnections comps = .ok d)
    (h' : AutoDiscoverConnections comps' = .ok d')
    (hperm : comps.Perm comps') :
    d'.satisfied_needs = d.satisfied_needs := by
  have hs1 : List.Sorted (fun a b : String => strLe a b = true) d'.satisfied_needs :=
    sortedStrings_sorted _
  have hs2 : List.Sorted (fun a b : String => strLe a b = true) d.satisfied_needs :=
    sortedStrings_sorted _
  have hp2 : d'.satisfied_needs.Perm d.satisfied_needs := by
    rw [List.perm_ext_iff_of_nodup (satisfied_needs_nodup h') (satisfied_needs_nodup h)]
    intro x
    rw [satisfied_needs_mem h' x, satisfied_needs_mem h x]
    rw [exists_mem_perm hperm (fun c => x ∈ c.needs),
      exists_mem_perm hperm (fun c => x ∈ c.provides)]
  exact @List.eq_of_perm_of_sorted String (fun a b => strLe a b = true)
    strLeRel_antisymm _ _ hp2 hs1 hs2

theorem mem_dictPop (fl : List (String × String)) (k0 k : String) (v : String) :
    (k, v) ∈ dictPop fl k0 ↔ ((k, v) ∈ fl ∧ k ≠ k0) := by
  unfold dictPop
  rw [List.mem_filter]
  simp

theorem dictPop_lookup_self (fl : List (String × String)) (k0 : String) :
    alookup (dictPop fl k0) k0 = none := by
  unfold dictPop
  induction fl with
  | nil => rfl
  | cons e rest ih =>
    rw [List.filter_cons]
    by_cases he : e.1 = k0
    · rw [if_neg (by simp [he])]
      exact ih
    · rw [if_pos (by simp [he])]
      simp only [alookup, he, if_neg]
      exact ih

/-! Claim theorems. -/

/-- C1 (counterexample): the claim as stated is false.  The list
`[compD, compD, compX]` — the same needs-only component object listed twice
plus a provider of `x` — is accepted by discovery (no duplicate providers, no
self-satisfaction), yet `connections()` yields the triple `(x, compD, compX)`
twice, not exactly once per satisfied name and requiring component. -/
theorem C1_counterexample :
    (AutoDiscoverConnections [compD, compD, compX]).toOption.map
      (fun d => d.connections.count ⟨"x", compD, compX⟩) = some 2 := by
  rfl

/-- C1 (amended): for every component list accepted by discovery,
`unsatisfied_needs` is exactly the needed names minus the provided names and
`satisfied_needs` their intersection; provided additionally that no component
appears twice in the list (distinct identities) and no component repeats a
name in its needs list — which the library guarantees, since ports live in a
set — `connections()` yields each valid triple exactly once (no-duplicates
plus the membership characterisation, with the provider the unique component
providing the name); and all of these outputs are independent of the order of
the input list. -/
theorem C1_connections_exactly_once :
    ∀ (comps : List Component) (d : Discovery),
      AutoDiscoverConnections comps = .ok d →
      (∀ x, x ∈ d.unsatisfied_needs ↔
          (∃ c ∈ comps, x ∈ c.needs) ∧ ¬∃ c ∈ comps, x ∈ c.provides) ∧
      (∀ x, x ∈ d.satisfied_needs ↔
          (∃ c ∈ comps, x ∈ c.needs) ∧ ∃ c ∈ comps, x ∈ c.provides) ∧
      ((comps.map Component.cid).Nodup → (∀ c ∈ comps, c.needs.Nodup) →
        d.connections.Nodup ∧
          ∀ t : DiscoveredConnection, t ∈ d.connections ↔
            t.consumer ∈ comps ∧ t.port_name ∈ t.consumer.needs ∧
              t.provider ∈ comps ∧ t.port_name ∈ t.provider.provides) ∧
      (∀ (comps' : List Component) (d' : Discovery), comps.Perm comps' →
        AutoDiscoverConnections comps' = .ok d' →
        d'.unsatisfied_needs = d.unsatisfied_needs ∧
          d'.satisfied_needs = d.satisfied_needs ∧
          ∀ t, t ∈ d'.connections ↔ t ∈ d.connections) := by
  intro comps d h
  refine ⟨fun x => unsatisfied_needs_mem h x, fun x => satisfied_needs_mem h x, ?_, ?_⟩
  · intro hcid hneeds
    exact ⟨connections_nodup h hcid hneeds, fun t => connections_mem h t⟩
  · intro comps' d' hperm h'
    refine ⟨unsatisfied_perm_eq h h' hperm, satisfied_perm_eq h h' hperm, ?_⟩
    intro t
    rw [connections_mem h' t, connections_mem h t]
    constructor
    · rintro ⟨h1, h2, h3, h4⟩
      exact ⟨hperm.mem_iff.mpr h1, h2, hperm.mem_iff.mpr h3, h4⟩
    · rintro ⟨h1, h2, h3, h4⟩
      exact ⟨hperm.mem_iff.mp h1, h2, hperm.mem_iff.mp h3, h4⟩

/-- C1 (witness): the amended theorem applied to the spec's worked example. -/
theorem C1_witness :
    AutoDiscoverConnections [compA, compB, compC] = .ok wDisc ∧
      ([compA, compB, compC].map Component.cid).Nodup ∧
      "x" ∈ wDisc.unsatisfied_needs ∧
      "b1" ∈ wDisc.satisfied_needs ∧
      (⟨"b1", compA, compB⟩ : DiscoveredConnection) ∈ wDisc.connections := by
  have h := C1_connections_exactly_once [compA, compB, compC] wDisc (by rfl)
  refine ⟨by rfl, by decide, ?_, ?_, ?_⟩
  · exact (h.1 "x").mpr (by decide)
  · exact (h.2.1 "b1").mpr (by decide)
  · exact ((h.2.2.1 (by decide) (by decide)).2 ⟨"b1", compA, compB⟩).mpr (by decide)

/-- C2: with strict wiring requested, if any needed name has no provider the
call returns `DisconnectedPort` whose message lists every unsatisfied name and
the wiring state is exactly what it was before the call (nothing is bound);
if every need is satisfied the call succeeds and binds every discovered
connection (the final state is exactly the discovered connection set).  The
satisfied case is stated for fresh, unbound components — the only state the
library ever wires, since registries are rebuilt per instance — with the
identity and needs-set hypotheses the library guarantees. -/
theorem C2_strict_wire_atomic :
    ∀ (comps : List Component) (d : Discovery) (st : WireState),
      AutoDiscoverConnections comps = .ok d →
      (d.unsatisfied_needs ≠ [] →
        auto_wire comps true st =
          (st, some (.DisconnectedPort ("The following ports are disconnected - " ++
            String.intercalate ", " d.unsatisfied_needs)))) ∧
      (d.unsatisfied_needs = [] → (comps.map Component.cid).Nodup →
        (∀ c ∈ comps, c.needs.Nodup) →
        auto_wire comps true ⟨[]⟩ =
          (⟨d.connections.map
            (fun t => ((t.consumer.cid, t.port_name), t.provider.cid))⟩, none) ∧
        ∀ t ∈ d.connections,
          alookup (auto_wire comps true ⟨[]⟩).1.providers
            (t.consumer.cid, t.port_name) = some t.provider.cid) := by
  intro comps d st h
  constructor
  · intro hne
    have hie : d.unsatisfied_needs.isEmpty = false := by
      cases hl : d.unsatisfied_needs with
      | nil => exact absurd hl hne
      | cons a l => rfl
    simp [auto_wire, h, hie]
  · intro hnil hcid hneeds
    have hie : d.unsatisfied_needs.isEmpty = true := by rw [hnil]; rfl
    have hred : auto_wire comps true ⟨[]⟩ =
        wire_up_discovered_connections d.connections ⟨[]⟩ := by
      simp [auto_wire, h, hie]
    have hkeys := connections_keys_nodup h hcid hneeds
    have hwire := wire_up_ok d.connections ⟨[]⟩ hkeys (fun t _ => rfl)
    constructor
    · rw [hred, hwire]
      simp
    · intro t ht
      rw [hred, hwire]
      show alookup ([] ++ d.connections.map
        (fun u => ((u.consumer.cid, u.port_name), u.provider.cid)))
        (t.consumer.cid, t.port_name) = some t.provider.cid
      rw [List.nil_append]
      exact map_entry_alookup (fun u => (u.consumer.cid, u.port_name))
        (fun u => u.provider.cid) d.connections hkeys ht

/-- C2 (witness): a failing strict wire leaves a pre-existing state untouched
and reports both unsatisfied names; the same call on a fully satisfiable list
binds exactly the discovered connection. -/
theorem C2_witness :
    AutoDiscoverConnections [compA] = .ok wDisc3 ∧
      auto_wire [compA] true wStBound =
        (wStBound, some (.DisconnectedPort
          "The following ports are disconnected - b1, x")) ∧
      AutoDiscoverConnections [compB, compC] = .ok wDisc2 ∧
      auto_wire [compB, compC] true ⟨[]⟩ = (⟨[((1, "c1"), 2)]⟩, none) := by
  have h1 := C2_strict_wire_atomic [compA] wDisc3 wStBound (by rfl)
  have h2 := C2_strict_wire_atomic [compB, compC] wDisc2 ⟨[]⟩ (by rfl)
  refine ⟨by rfl, ?_, by rfl, ?_⟩
  · exact (h1.1 (by decide)).trans (by rfl)
  · exact ((h2.2 (by rfl) (by decide) (by decide)).1).trans (by rfl)

/-- C3: given no duplicate providers (the provides map was gathered
successfully), discovery raises `SelfReferencingMadness` exactly when some
needed port's recorded provider is itself among the components requiring that
port, and succeeds otherwise. -/
theorem C3_self_reference :
    ∀ (comps : List Component) (pm : List (String × Component)),
      gatherProvides comps = .ok pm →
      ((∃ p c, alookup pm p = some c ∧ c ∈ comps ∧ p ∈ c.needs) →
        ∃ p', AutoDiscoverConnections comps = .error (.SelfReferencingMadness p')) ∧
      (¬(∃ p c, alookup pm p = some c ∧ c ∈ comps ∧ p ∈ c.needs) →
        ∃ d, AutoDiscoverConnections comps = .ok d) := by
  intro comps pm hp
  have hbridge : (∃ p c, alookup pm p = some c ∧ c ∈ comps ∧ p ∈ c.needs) ↔
      ¬(∀ e ∈ gatherNeeds comps, ∀ c, alookup pm e.1 = some c → c ∉ e.2) := by
    constructor
    · rintro ⟨p, c, hlook, hcm, hpn⟩ hall
      have hne : needersOf comps p ≠ [] := fun hnil =>
        (needersOf_eq_nil_iff.mp hnil) ⟨c, hcm, hpn⟩
      have hl : alookup (gatherNeeds comps) p = some (needersOf comps p) := by
        rw [gatherNeeds_alookup, if_neg hne]
      exact hall _ (mem_of_alookup_eq_some hl) c hlook
        (mem_needersOf.mpr ⟨hcm, hpn⟩)
    · intro hnall
      push_neg at hnall
      obtain ⟨e, he, c, hlook, hmem⟩ := hnall
      obtain ⟨hval, _⟩ := gatherNeeds_entry_value he
      rw [hval] at hmem
      obtain ⟨hcm, hpn⟩ := mem_needersOf.mp hmem
      exact ⟨e.1, c, hlook, hcm, hpn⟩
  constructor
  · intro hv
    have hnok : selfCheck (gatherNeeds comps) pm ≠ .ok () := fun hok =>
      (hbridge.mp hv) ((selfCheck_ok_iff _ _).mp hok)
    rcases selfCheck_result (gatherNeeds comps) pm with hok | ⟨p', herr⟩
    · exact absurd hok hnok
    · refine ⟨p', ?_⟩
      simp only [AutoDiscoverConnections, hp, herr]
  · intro hnv
    have hok : selfCheck (gatherNeeds comps) pm = .ok () := by
      rcases selfCheck_result (gatherNeeds comps) pm with hok | ⟨p', herr⟩
      · exact hok
      · exfalso
        apply hnv
        rw [hbridge]
        intro hall
        have hok2 := (selfCheck_ok_iff _ _).mpr hall
        rw [hok2] at herr
        cases herr
    refine ⟨⟨comps, gatherNeeds comps, pm⟩, ?_⟩
    simp only [AutoDiscoverConnections, hp, hok]

/-- C3 (witness): a component providing and needing the same port is rejected
with `SelfReferencingMadness`; without self-satisfaction discovery succeeds. -/
theorem C3_witness :
    gatherProvides [compSelf] = .ok [("p", compSelf)] ∧
      (AutoDiscoverConnections [compSelf]).toOption = none ∧
      (AutoDiscoverConnections [compB, compC]).toOption.isSome = true := by
  have h1 := (C3_self_reference [compSelf] [("p", compSelf)] (by rfl)).1
    ⟨"p", compSelf, by decide, by decide, by decide⟩
  have h2 := (C3_self_reference [compB, compC] [("b1", compB), ("c1", compC)] (by rfl)).2 ?_
  · obtain ⟨p', hp'⟩ := h1
    obtain ⟨d, hd⟩ := h2
    refine ⟨by rfl, ?_, ?_⟩
    · rw [hp']
      rfl
    · rw [hd]
      rfl
  · rintro ⟨p, c, hlook, hcm, hpn⟩
    have hmemp := mem_of_alookup_eq_some hlook
    rcases List.mem_cons.mp hmemp with hh | ht
    · cases hh
      revert hpn
      decide
    · rw [List.mem_singleton] at ht
      cases ht
      revert hpn
      decide

/-- C4: whenever a composite (Domain) class definition succeeds, the `deps`
ports declared on it are exactly the unresolved names of its children — the
union of the children's needed names minus the union of their provided names —
with exactly one port per unresolved name (the port list has no duplicates)
and no others. -/
theorem C4_domain_unresolved_needs :
    ∀ (services : List Component) (provides : List String) (dc : DomainClass),
      DomainMetaclass_new services provides = .ok dc →
      dc.deps.ports.Nodup ∧
        ∀ x, x ∈ dc.deps.ports ↔
          (∃ c ∈ services, x ∈ c.needs) ∧ ¬∃ c ∈ services, x ∈ c.provides := by
  intro services provides dc h
  obtain ⟨discovered, hdisc, _, hdeps, _⟩ := DomainMetaclass_new_ok h
  obtain ⟨hports, hnodup, _, _, _, _⟩ := addPorts_ok hdeps
  have hports2 : dc.deps.ports = discovered.unsatisfied_needs := by
    rw [hports]
    rfl
  constructor
  · rw [hports2]
    exact hnodup
  · intro x
    rw [hports2]
    exact unsatisfied_needs_mem hdisc x

/-- C4 (witness): the domain over `[compA, compB]` publishing `b1` declares
exactly the unresolved needs `c1` and `x`. -/
theorem C4_witness :
    DomainMetaclass_new [compA, compB] ["b1"] = .ok wDC ∧
      wDC.deps.ports = ["c1", "x"] ∧
      wDC.deps.ports.Nodup ∧
      ("c1" ∈ wDC.deps.ports) ∧
      ¬("b1" ∈ wDC.deps.ports) := by
  have h := C4_domain_unresolved_needs [compA, compB] ["b1"] wDC (by rfl)
  refine ⟨by rfl, by rfl, h.1, ?_, ?_⟩
  · exact (h.2 "c1").mpr (by decide)
  · intro hmem
    have := (h.2 "b1").mp hmem
    revert this
    decide

/-- C5: the static usage analyzer works on the parse tree, in which comments
do not occur (`ast.parse` drops them) and string literals are opaque constant
leaves; a name with no identifier occurrence in the tree — in particular one
whose only occurrences are inside comments or string literal text — is never
in the returned used-set. -/
theorem C5_analyzer_ignores_strings :
    ∀ (tree : PyExpr) (n : String),
      mentionsId tree n = false → n ∉ parse_deps_used_new tree := by
  intro tree n h hmem
  have hms := pyVisit_sound tree n hmem
  rw [h] at hms
  cases hms

/-- C5 (witness): `secret` occurs only inside a string literal's text and is
excluded from the used-set, while the genuine call `self.deps.yes()` is
collected. -/
theorem C5_witness :
    mentionsId treeFixture "secret" = false ∧
      "secret" ∉ parse_deps_used_new treeFixture ∧
      "yes" ∈ parse_deps_used_new treeFixture := by
  refine ⟨by rfl, ?_, by decide⟩
  exact C5_analyzer_ignores_strings treeFixture "secret" (by rfl)

/-- C6: a second attempt to wire an already-bound port through `set_provider`
fails with the duplicate-binding error (`DuplicateProviders`, the spec's
`DuplicatePort`), and since the check precedes any mutation the caller's state
— including the existing binding — is returned unchanged. -/
theorem C6_rewire_duplicate :
    ∀ (consumer provider : Component) (port_name : String) (st : WireState) (q : Nat),
      alookup st.providers (consumer.cid, port_name) = some q →
      set_provider consumer port_name provider st =
          .error (.DuplicateProviders port_name) ∧
        set_provider_run consumer port_name provider st =
          (st, some (.DuplicateProviders port_name)) := by
  intro consumer provider port_name st q h
  have hsome : (alookup st.providers (consumer.cid, port_name)).isSome := by
    rw [h]
    rfl
  have herr : set_provider consumer port_name provider st =
      .error (.DuplicateProviders port_name) := by
    unfold set_provider
    rw [if_pos hsome]
  refine ⟨herr, ?_⟩
  unfold set_provider_run
  rw [herr]

/-- C6 (witness): component 1's `c1` port is already bound to provider 2; a
second `set_provider` for the same port fails and leaves the state as is. -/
theorem C6_witness :
    alookup wStBound.providers (compB.cid, "c1") = some 2 ∧
      set_provider_run compB "c1" compX wStBound =
        (wStBound, some (.DuplicateProviders "c1")) := by
  refine ⟨by rfl, ?_⟩
  exact (C6_rewire_duplicate compB compX "c1" wStBound 2 (by rfl)).2

/-- C7 (counterexample): the claim as stated is false.  The code's regex is
applied with Python `re.match` semantics, where the `$` anchor also matches
just before one trailing newline, so `add_port` accepts the string
`ab` followed by a newline even though it does not match the spec's anchored
pattern, and no `InvalidPortName` is raised. -/
theorem C7_counterexample :
    specPortNameMatches "ab\n" = false ∧
      PortArray.empty.add_port "ab\n" =
        .ok ⟨["ab\n"], [("ab\n", .placeholder "ab\n")]⟩ := by
  exact ⟨by rfl, by rfl⟩

/-- C7 (amended): `add_port` succeeds only for names passing the code's
Python-semantics regex and the reserved-word check; every name failing either
check is rejected with `InvalidPortName` before the registry is touched; and
the Python-semantics regex accepts exactly the spec's anchored pattern
possibly followed by one trailing newline. -/
theorem C7_add_port_validation :
    ∀ (a : PortArray) (s : String),
      (∀ b, a.add_port s = .ok b →
        VALID_PORT_NAME_FORMAT_match s = true ∧ s ∉ RESERVED_PORT_NAMES) ∧
      ((VALID_PORT_NAME_FORMAT_match s = false ∨ s ∈ RESERVED_PORT_NAMES) →
        a.add_port s = .error (.InvalidPortName s)) ∧
      (VALID_PORT_NAME_FORMAT_match s = true ↔
        (specPortNameMatches s = true ∨
          ∃ cs, s.data = cs ++ ['\n'] ∧ specCharsMatch cs = true)) := by
  intro a s
  refine ⟨?_, ?_, VALID_iff_spec_or_newline s⟩
  · intro b hb
    obtain ⟨hv, hres, _, _⟩ := add_port_ok_conditions hb
    exact ⟨hv, hres⟩
  · rintro (h | h)
    · exact add_port_invalid_format h
    · cases hv : VALID_PORT_NAME_FORMAT_match s with
      | false => exact add_port_invalid_format hv
      | true => exact add_port_reserved hv h

/-- C7 (witness): a malformed name and a reserved name are both rejected with
`InvalidPortName` on an empty registry, whose port set stays empty. -/
theorem C7_witness :
    VALID_PORT_NAME_FORMAT_match "1bad" = false ∧
      PortArray.empty.add_port "1bad" = .error (.InvalidPortName "1bad") ∧
      PortArray.empty.add_port "deps" = .error (.InvalidPortName "deps") := by
  refine ⟨by rfl, ?_, ?_⟩
  · exact (C7_add_port_validation PortArray.empty "1bad").2.1 (Or.inl (by rfl))
  · exact (C7_add_port_validation PortArray.empty "deps").2.1 (Or.inr (by decide))

/-- C8: when a composite re-exposes a child's provided port, the flags the
composite publishes for it are the child's flags with the rename flag
`with_name` removed and every other key-value pair unchanged; the child
(whose flags are returned as a copy by `get_provider_flags`) is not modified
— the composite's children are exactly the input classes. -/
theorem C8_flags_inherited :
    ∀ (services : List Component) (provides : List String) (dc : DomainClass)
      (p : String) (pr : Component) (fl : List (String × String)),
      DomainMetaclass_new services provides = .ok dc →
      p ∈ provides → pr ∈ services → p ∈ pr.provides →
      alookup pr.flags p = some fl →
      alookup dc.meta_flags p = some (dictPop fl "with_name") ∧
        (∀ k v, (k, v) ∈ dictPop fl "with_name" ↔ ((k, v) ∈ fl ∧ k ≠ "with_name")) ∧
        alookup (dictPop fl "with_name") "with_name" = none ∧
        dc.children = services := by
  intro services provides dc p pr fl h hp hprm hpprov hfl
  obtain ⟨discovered, hdisc, hchildren, _, hreg⟩ := DomainMetaclass_new_ok h
  obtain ⟨provider, inherited, hgp, hgf, hflags⟩ :=
    registerDomainProviders_flags discovered hreg hp rfl rfl
  obtain ⟨_, _, hprov⟩ := AutoDiscoverConnections_ok hdisc
  have hlook : alookup discovered.provides p = some pr :=
    (provides_alookup_iff hprov p pr).mpr ⟨hprm, hpprov⟩
  have hpr : provider = pr := by
    unfold Discovery.get_provider at hgp
    rw [hlook] at hgp
    have hgp2 : (Except.ok pr : Except GErr Component) = Except.ok provider := hgp
    exact (Except.ok.inj hgp2).symm
  rw [hpr] at hgf
  have hinh : inherited = fl := by
    unfold Component.get_provider_flags at hgf
    rw [hfl] at hgf
    have hgf2 : (Except.ok fl : Except GErr (List (String × String))) =
        Except.ok inherited := hgf
    exact (Except.ok.inj hgf2).symm
  rw [hinh] at hflags
  exact ⟨hflags, fun k v => mem_dictPop fl "with_name" k v,
    dictPop_lookup_self fl "with_name", hchildren⟩

/-- C8 (witness): the domain publishing `b1` from `compB` inherits the `web`
flag and strips the `with_name` rename flag; `compB` itself is unchanged. -/
theorem C8_witness :
    DomainMetaclass_new [compA, compB] ["b1"] = .ok wDC ∧
      alookup wDC.meta_flags "b1" = some [("web", "yes")] ∧
      alookup [("with_name", "orig"), ("web", "yes")] "with_name" =
        some "orig" ∧
      wDC.children = [compA, compB] := by
  have h := C8_flags_inherited [compA, compB] ["b1"] wDC "b1" compB
    [("with_name", "orig"), ("web", "yes")] (by rfl) (by decide) (by decide)
    (by decide) (by rfl)
  exact ⟨by rfl, h.1.trans (by rfl), by rfl, h.2.2.2⟩

/-- C9: replication (`cloneDeclarationOnly`) of any well-formed registry —
one whose declared names are distinct and were accepted by
`assert_valid_port_name`, as `add_port` guarantees — succeeds and produces a
registry with exactly the same declared names in which every port is
disconnected; the source registry is only read, never written. -/
theorem C9_replicate_declaration_only :
    ∀ (a : PortArray), a.ports.Nodup →
      (∀ p ∈ a.ports,
        VALID_PORT_NAME_FORMAT_match p = true ∧ p ∉ RESERVED_PORT_NAMES) →
      (PortArray.replicate a).isOk = true ∧
        ∀ b, PortArray.replicate a = .ok b →
          (∀ p, p ∈ b.ports ↔ p ∈ a.ports) ∧ b.ports.Nodup ∧
            ∀ p ∈ b.ports, b.is_disconnected_port p = .ok true := by
  intro a hnodup hvalid
  have hex : ∃ b, addPorts a.get_ports PortArray.empty = .ok b :=
    addPorts_exists hnodup (fun p _ hmem => by cases hmem) hvalid
  constructor
  · obtain ⟨b, hb⟩ := hex
    unfold PortArray.replicate
    rw [hb]
    rfl
  · intro b hb
    have hb2 : addPorts a.get_ports PortArray.empty = .ok b := hb
    obtain ⟨hports, hnd, _, hattrs, _, _⟩ := addPorts_ok hb2
    have hports2 : b.ports = a.ports := by
      rw [hports]
      rfl
    refine ⟨fun p => by rw [hports2], by rw [hports2]; exact hnodup, ?_⟩
    intro p hpmem
    unfold PortArray.is_disconnected_port
    rw [if_pos hpmem]
    have hpa : p ∈ a.get_ports := by
      rw [hports2] at hpmem
      exact hpmem
    rw [hattrs p hpa]

/-- C9 (witness): replicating a registry with one bound and one unbound port
yields a registry with the same two names, both disconnected. -/
theorem C9_witness :
    PortArray.replicate arrFixture = .ok wRep ∧
      (arrFixture.is_disconnected_port "foo" = .ok false) ∧
      wRep.is_disconnected_port "foo" = .ok true ∧
      wRep.is_disconnected_port "bar" = .ok true ∧
      wRep.ports = arrFixture.ports := by
  have h := (C9_replicate_declaration_only arrFixture (by decide) (by decide)).2
    wRep (by rfl)
  refine ⟨by rfl, by rfl, ?_, ?_, by rfl⟩
  · exact h.2.2 "foo" (by decide)
  · exact h.2.2 "bar" (by decide)

/-- C10: for a shadow port array built over any underlying registries with an
ignore set, connecting or disconnecting an ignored name raises `UnknownPort`
— even when underlying registries declare the name, which is never gathered —
and, the error being raised before the propagation loop, no underlying
registry is touched.  Consequently a composite's internally satisfied child
needs (the ignore set `Domain.__init__` passes) cannot be re-bound or
disconnected through the composite's deps proxy. -/
theorem C10_shadow_ignored_ports :
    (∀ (arrays : List PortArray) (ignore_ports : List String) (p : String) (f : Nat),
      p ∈ ignore_ports →
      (ShadowPortArray.make arrays ignore_ports).connect_port p f =
          .error (.UnknownPort p) ∧
        (ShadowPortArray.make arrays ignore_ports).disconnect_port p =
          .error (.UnknownPort p) ∧
        alookup (ShadowPortArray.make arrays ignore_ports).portsMap p = none) ∧
    (∀ (arrays : List PortArray) (d : Discovery) (p : String) (f : Nat),
      p ∈ d.satisfied_needs →
      (Domain_init_deps arrays d).connect_port p f = .error (.UnknownPort p) ∧
        (Domain_init_deps arrays d).disconnect_port p = .error (.UnknownPort p)) := by
  constructor
  · intro arrays ignore_ports p f hp
    exact ⟨shadow_connect_ignored hp f, shadow_disconnect_ignored hp,
      gatherShadowPorts_ignored arrays ignore_ports hp⟩
  · intro arrays d p f hp
    exact ⟨shadow_connect_ignored hp f, shadow_disconnect_ignored hp⟩

/-- C10 (witness): the underlying array declares `x`, yet with `x` ignored the
shadow proxy rejects both connect and disconnect with `UnknownPort`, while the
non-ignored `y` connects fine. -/
theorem C10_witness :
    ("x" ∈ arrXY.ports) ∧
      (ShadowPortArray.make [arrXY] ["x"]).connect_port "x" 5 =
        .error (.UnknownPort "x") ∧
      (ShadowPortArray.make [arrXY] ["x"]).disconnect_port "x" =
        .error (.UnknownPort "x") ∧
      ((ShadowPortArray.make [arrXY] ["x"]).connect_port "y" 5).isOk = true := by
  have h := C10_shadow_ignored_ports.1 [arrXY] ["x"] "x" 5 (by decide)
  exact ⟨by decide, h.1, h.2.1, by rfl⟩

end Gasofo
